import Mathlib

namespace MtmTorchBrain

/-!
Verification development for the mtm_torch_brain repository.

Shallow embedding of the tensor programs in:
  * src/kirby/models/perceiver_rotary.py  (rotary embeddings, attention, PerceiverNM)
  * src/kirby/models/poyo.py              (POYO.freeze_middle, POYOTokenizer)
  * src/kirby/data/dataset.py             (Dataset.augment_for_batchsize, Collate)
  * src/examples/ndt2/model.py            (MaeMaskManager, Transformer.make_src_mask)

Floating point tensors are modelled over the reals; tensors are modelled as
functions from (unbounded) index types, with the tensor shapes carried
alongside where a claim speaks about them.  Integer index tensors are
modelled over ℕ.
-/

/-! ### Rotary position embedding (src/kirby/models/perceiver_rotary.py)

`RotaryEmbedding.__init__` computes
`inv_freq = 1.0 / (10000 ** (torch.arange(0, dim, 2).float() / dim))`,
so entry `i` of `inv_freq` is `1 / 10000 ^ (2*i/dim)`. -/

noncomputable def inv_freq (dim : ℕ) (i : ℕ) : ℝ :=
  1 / (10000 : ℝ) ^ (((2 * i : ℕ) : ℝ) / (dim : ℝ))

/-- Shallow embedding of `RotaryEmbedding.forward` applied to a single
timestamp: `freqs = einsum('..., f -> ... f', 1000 * timestamps, inv_freq)`
followed by `repeat(freqs, '... n -> ... (n r)', r = 2)`, which duplicates
each frequency at two consecutive slots, so slot `j` holds frequency
`inv_freq (j / 2)`. -/
noncomputable def rotaryEmbForward (dim : ℕ) (t : ℝ) : Fin dim → ℝ :=
  fun j => 1000 * t * inv_freq dim ((j : ℕ) / 2)

/-- Shallow embedding of `rotate_half`:
`x_even = x[..., ::2]`, `x_odd = x[..., 1::2]`,
`return torch.cat((-x_odd, x_even), dim=-1)`.
The concatenated vector holds `-x[2*j+1]` at slot `j < d/2`
and `x[2*(j - d/2)]` at the remaining slots. -/
noncomputable def rotate_half {d : ℕ} (x : Fin d → ℝ) : Fin d → ℝ :=
  fun j =>
    if h : (j : ℕ) < d / 2 then
      -x ⟨2 * (j : ℕ) + 1, by omega⟩
    else
      x ⟨2 * ((j : ℕ) - d / 2), by have := j.isLt; omega⟩

/-- Shallow embedding of `apply_rotary_pos_emb` on a single position:
`x * freqs.cos() + rotate_half(x) * freqs.sin()` (the `dim=1` / `dim=2`
branches only insert broadcast axes). -/
noncomputable def apply_rotary_pos_emb {d : ℕ} (freqs x : Fin d → ℝ) : Fin d → ℝ :=
  fun j => x j * Real.cos (freqs j) + rotate_half x j * Real.sin (freqs j)

/-- Squared Euclidean norm of a vector. -/
noncomputable def sqNorm {d : ℕ} (x : Fin d → ℝ) : ℝ := ∑ j, (x j) ^ 2

/-- Concrete input vector (1, 1, 0, 0) used to evaluate the rotary map at
head dimension 4. -/
noncomputable def xC1 : Fin 4 → ℝ := fun j => if (j : ℕ) < 2 then 1 else 0

/-! ### Dataset.augment_for_batchsize (src/kirby/data/dataset.py, lines 164-171)

Python's `list * n` is modelled by `listMul`, the `n`-fold concatenation. -/

def listMul {α : Type} (l : List α) : ℕ → List α
  | 0 => []
  | n + 1 => l ++ listMul l n

/-- Shallow embedding of `Dataset.augment_for_batchsize` acting on the
`chunk_info` list: when `len(self) < batch_size` the chunk list is replaced
by `self.chunk_info * (1 + ((batch_size - 1) // curr_len))`
(`session_names` receives the same treatment and is not modelled
separately). -/
def augment_for_batchsize {α : Type} (chunk_info : List α) (batch_size : ℕ) : List α :=
  if chunk_info.length < batch_size then
    listMul chunk_info (1 + (batch_size - 1) / chunk_info.length)
  else
    chunk_info

/-! ### POYO.freeze_middle (src/kirby/models/poyo.py, lines 69-87)

A `POYO` module's children (in registration order from `__init__`) are
`unit_emb`, `session_emb`, `spike_type_emb`, `task_emb`, `latent_emb`,
`perceiver_io` and `readout`.  Each is modelled by the list of the
`requires_grad` flags of its parameters.  `freeze_middle` builds
`banned_modules = [self.readout, self.unit_emb, self.session_emb,
self.enc_atn, self.enc_ffn]`; evaluating `self.enc_atn` performs an
attribute lookup that fails, raising `AttributeError` before the freezing
loop runs. -/

structure POYOParams where
  unit_emb : List Bool
  session_emb : List Bool
  spike_type_emb : List Bool
  task_emb : List Bool
  latent_emb : List Bool
  perceiver_io : List Bool
  readout : List Bool

/-- Attribute lookup on a `POYO` module: returns the parameter flags of the
named child module, or `none` (Python: raises `AttributeError`) when the
module has no attribute of that name. -/
def poyoModuleAttr (p : POYOParams) (name : String) : Option (List Bool) :=
  if name = "unit_emb" then some p.unit_emb
  else if name = "session_emb" then some p.session_emb
  else if name = "spike_type_emb" then some p.spike_type_emb
  else if name = "task_emb" then some p.task_emb
  else if name = "latent_emb" then some p.latent_emb
  else if name = "perceiver_io" then some p.perceiver_io
  else if name = "readout" then some p.readout
  else none

/-- Set `param.requires_grad = False` for every parameter of a module. -/
def freezeAll (l : List Bool) : List Bool := l.map (fun _ => false)

/-- Shallow embedding of `POYO.freeze_middle`.  The result is the module
state after the call together with `some errorMessage` when the call raises.
Building `banned_modules` evaluates `self.enc_atn` (then `self.enc_ffn`);
if both lookups succeeded, the loop would freeze every child not in
`banned_modules`, i.e. `spike_type_emb`, `task_emb`, `latent_emb` and
`perceiver_io`. -/
def freeze_middle (p : POYOParams) : POYOParams × Option String :=
  match poyoModuleAttr p "enc_atn" with
  | none => (p, some "AttributeError: POYO object has no attribute enc_atn")
  | some _ =>
    match poyoModuleAttr p "enc_ffn" with
    | none => (p, some "AttributeError: POYO object has no attribute enc_ffn")
    | some _ =>
      ({ p with
          spike_type_emb := freezeAll p.spike_type_emb,
          task_emb := freezeAll p.task_emb,
          latent_emb := freezeAll p.latent_emb,
          perceiver_io := freezeAll p.perceiver_io }, none)

/-! ### Transformer.make_src_mask (src/examples/ndt2/model.py, lines 332-347)

Mask entries are additive attention biases: `0.0` (attend) or `-inf`
(blocked), modelled as `WithBot ℝ` with `⊥` for `-inf`.  The source builds
`cond = times[:, :, None] >= times[:, None, :]`,
`src_mask = torch.where(cond, 0.0, float("-inf"))`, then
`F.pad(src_mask, (0, 0, 0, nb_ctx_token), value=float("-inf"))` (append
`nb_ctx_token` rows of `-inf`) and `F.pad(src_mask, (0, nb_ctx_token),
value=0)` (append `nb_ctx_token` columns of `0`), and finally repeats the
result over the `heads` axis: flat index `bh = b * heads + h` maps to batch
row `bh / heads`. -/

noncomputable def make_src_mask (heads : ℕ) (times : ℕ → ℕ → ℤ) (S nbCtx : ℕ) :
    ℕ → ℕ → ℕ → WithBot ℝ :=
  fun bh i j =>
    if S ≤ j ∧ j < S + nbCtx then ((0 : ℝ) : WithBot ℝ)
    else if S ≤ i ∧ i < S + nbCtx then ⊥
    else if times (bh / heads) j ≤ times (bh / heads) i then ((0 : ℝ) : WithBot ℝ)
    else ⊥

/-! ### MaeMaskManager (src/examples/ndt2/model.py, lines 51-141)

The batch dictionary holds `spike_tokens` of shape `(B, T*N, P, Q)` (spike
counts, modelled over ℤ), and `time_idx`, `space_idx`, `channel_counts` of
shape `(B, T*N)`.  `torch.bernoulli` draws are supplied by the oracle
`rand`; `mask_ratio` is modelled as a rational (`int(r * n)` is `⌊r * n⌋`
for the non-negative ratios the module is built with). -/

structure MaeBatch where
  B : ℕ
  TN : ℕ
  P : ℕ
  Q : ℕ
  spikeTokens : ℕ → ℕ → ℕ → ℕ → ℤ
  timeIdx : ℕ → ℕ → ℕ
  spaceIdx : ℕ → ℕ → ℕ
  channelCounts : ℕ → ℕ → ℕ

/-- Result of `MaeMaskManager.forward`: the (possibly masked) source keys,
the `*_target` keys, the generated `spike_tokens_target_mask` (absent in
eval mode, where the code does not set it), `encoder_frac` and `shuffle`. -/
structure MaeOut where
  spikeTokens : ℕ → ℕ → ℕ → ℕ → ℤ
  timeIdx : ℕ → ℕ → ℕ
  spaceIdx : ℕ → ℕ → ℕ
  channelCounts : ℕ → ℕ → ℕ
  spikeTokensTarget : ℕ → ℕ → ℕ → ℕ → ℤ
  timeIdxTarget : ℕ → ℕ → ℕ
  spaceIdxTarget : ℕ → ℕ → ℕ
  channelCountsTarget : ℕ → ℕ → ℕ
  targetMask : Option (ℕ → ℕ → Bool)
  encoderFrac : ℕ
  shuffle : List ℕ

/-- Number of distinct values of an index tensor of shape `(B, TN)`
(`len(torch.unique(...))`). -/
def uniqueCount (B TN : ℕ) (f : ℕ → ℕ → ℕ) : ℕ :=
  (((Finset.range B) ×ˢ (Finset.range TN)).image (fun p => f p.1 p.2)).card

/-- `int(self.mask_ratio * n)`, which is the floor for non-negative
ratios. -/
def numToMask (frac : ℚ) (n : ℕ) : ℕ := (⌊frac * (n : ℚ)⌋).toNat

/-- First index set to 1 by `mask[-num_to_mask:] = 1` on a zero vector of
length `T`: for `k > 0` the slice starts at `max(0, T - k)`; Python's `-0`
quirk makes `mask[-0:]` the whole vector, so `k = 0` sets every index. -/
def tempMaskStart (T k : ℕ) : ℕ := if k = 0 then 0 else T - k

/-- Shallow embedding of `MaeMaskManager.forward`.  Returns
`Except.error msg` when the Python code raises `ValueError(msg)`.
In eval mode the code copies every key to its `*_target` twin and skips
masking.  Otherwise the mask is generated per mode:
  * `"temporal"` / `"forward-pred"`: the last `int(ratio * T')` of the `T'`
    distinct time patches are masked, then expanded through `time_idx`;
  * `"neuron"`: Bernoulli draws of shape `(B, num_spatial_patches)` indexed
    by `space_idx[0]` (the first batch row, as in the source);
  * `"random"`: Bernoulli draws of shape `(B, total_patches)`;
then `spike_tokens_target` stores a copy of the original tokens and
`spike_tokens` is `masked_fill(mask, 0)` with the mask broadcast over
`(P, Q)`; the other keys alias their originals. -/
def maeMaskForward (frac : ℚ) (mode : String) (rand : ℕ → ℕ → Bool)
    (batch : MaeBatch) (evalMode : Bool) : Except String MaeOut :=
  if evalMode then
    .ok { spikeTokens := batch.spikeTokens, timeIdx := batch.timeIdx,
          spaceIdx := batch.spaceIdx, channelCounts := batch.channelCounts,
          spikeTokensTarget := batch.spikeTokens, timeIdxTarget := batch.timeIdx,
          spaceIdxTarget := batch.spaceIdx, channelCountsTarget := batch.channelCounts,
          targetMask := none, encoderFrac := batch.TN, shuffle := List.range batch.TN }
  else
    let Tp := uniqueCount batch.B batch.TN batch.timeIdx
    -- num_spatial_patches = len(torch.unique(space_idx)) sizes the Bernoulli
    -- draw matrix for the "neuron" mode; the draw matrix itself is `rand`.
    let maskOpt : Option (ℕ → ℕ → Bool) :=
      if mode = "temporal" then
        some (fun b t => decide (tempMaskStart Tp (numToMask frac Tp) ≤ batch.timeIdx b t))
      else if mode = "neuron" then
        some (fun b t => rand b (batch.spaceIdx 0 t))
      else if mode = "forward-pred" then
        some (fun b t => decide (tempMaskStart Tp (numToMask frac Tp) ≤ batch.timeIdx b t))
      else if mode = "random" then
        some (fun b t => rand b t)
      else none
    match maskOpt with
    | none => .error ("Unknown mode: " ++ mode)
    | some mask =>
      .ok { spikeTokens := fun b t p q => if mask b t then 0 else batch.spikeTokens b t p q,
            timeIdx := batch.timeIdx, spaceIdx := batch.spaceIdx,
            channelCounts := batch.channelCounts,
            spikeTokensTarget := batch.spikeTokens,
            timeIdxTarget := batch.timeIdx, spaceIdxTarget := batch.spaceIdx,
            channelCountsTarget := batch.channelCounts,
            targetMask := some mask,
            encoderFrac := (⌊(1 - frac) * (batch.TN : ℚ)⌋).toNat,
            shuffle := List.range batch.TN }

/-- Concrete Mae batch used by the witnesses. -/
def maeBatchW : MaeBatch :=
  ⟨1, 2, 1, 1, fun _ _ _ _ => 5, fun _ t => t, fun _ t => t, fun _ _ => 3⟩

/-! ### POYOTokenizer (src/kirby/models/poyo.py, lines 159-290)

The data object carries the unit ids, per-spike local unit indices and
timestamps, and the per-metric output timestamps that
`prepare_for_multitask_readout` resolves. -/

structure POYOData where
  unitIds : List String
  spikeUnitIndex : List ℕ
  spikeTimestamps : List ℝ
  session : String
  outputTimestampLists : List (List ℝ)

/-- Modelled from the spec: `create_start_end_unit_tokens` (imported from
`kirby.utils`, not under src/) creates one artificial start event and one
artificial end event per unit — the same construction that
`Collate.__call__` (src/kirby/data/dataset.py, lines 460-472) performs
inline: token types `START`/`END`, local unit indices `0..U-1` twice, and
timestamps `start` then `end`, each replicated once per unit. -/
def create_start_end_unit_tokens (unitIds : List String) (s e : ℝ) :
    List ℕ × List ℕ × List ℝ :=
  (List.replicate unitIds.length 1 ++ List.replicate unitIds.length 2,
   List.range unitIds.length ++ List.range unitIds.length,
   List.replicate unitIds.length s ++ List.replicate unitIds.length e)

/-- Modelled from the spec: `create_linspace_latent_tokens` (imported from
`kirby.utils`, not under src/) lays out `arange(start, end, step) + step/2`
latent timestamps with `num_latents_per_step` latent indices per step — the
same construction that `Collate.__call__` (src/kirby/data/dataset.py,
lines 428-437) performs inline. -/
noncomputable def create_linspace_latent_tokens (s e step : ℝ) (u : ℕ) :
    List ℕ × List ℝ :=
  let nSteps := Nat.ceil ((e - s) / step)
  (((List.range nSteps).map (fun _ => List.range u)).flatten,
   ((List.range nSteps).map (fun i => List.replicate u (s + step * i + step / 2))).flatten)

/-- Modelled from the spec: `prepare_for_multitask_readout` (imported from
`kirby.nn`, not under src/) concatenates the decoder-registry-resolved
output timestamps across the metrics requested for the sample (claim C6
only depends on `output_timestamps`; the parallel task-index, value and
weight arrays are not needed here). -/
def prepare_for_multitask_readout (d : POYOData) : List ℝ :=
  d.outputTimestampLists.flatten

/-- Modelled from the spec: `pad` (from `kirby.data`) marks an array for
padded collation; the per-sample array itself is unchanged. -/
def padMark {α : Type} (l : List α) : List α := l

/-- Modelled from the spec: `chain` (from `kirby.data`) marks an array for
packed (concatenated) collation; the per-sample array itself is
unchanged. -/
def chainMark {α : Type} (l : List α) : List α := l

/-- Modelled from the spec: `track_mask` (from `kirby.data`) emits the
per-sample attention mask, true on every real token (padding added later by
the collator is false). -/
def track_mask {α : Type} (l : List α) : List Bool := List.replicate l.length true

/-- Modelled from the spec: `track_batch` (from `kirby.data`) emits the
per-sample batch indices, one per output token (0 before collation). -/
def track_batch {α : Type} (l : List α) : List ℕ := List.replicate l.length 0

/-- Output dictionary of `POYOTokenizer.__call__`; keys that only one of
the two branches emits are `Option`s. -/
structure POYOTokenizerOut where
  spike_unit_index : List ℕ
  spike_timestamps : List ℝ
  spike_type : List ℕ
  input_mask : Option (List Bool)
  input_seqlen : Option ℕ
  latent_index : List ℕ
  latent_timestamps : List ℝ
  latent_seqlen : Option ℕ
  output_timestamps : List ℝ
  output_seqlen : Option ℕ
  output_batch_index : Option (List ℕ)

/-- Shallow embedding of `POYOTokenizer.__call__` (the `eval` extras are
omitted).  The context window is `start, end = 0, 1.`; start/end tokens are
prepended to the spike sequence; local unit indices are mapped to global
ones through `unit_tokenizer(unit_ids)`; then either the padded branch
(with `input_mask` from `track_mask`) or the chained branch (with
`input_seqlen` / `latent_seqlen` / `output_seqlen` and
`output_batch_index`) is emitted. -/
noncomputable def poyoTokenizerCall (usingMemEffAttn : Bool)
    (unitTokenizer : String → ℕ) (latentStep : ℝ) (numLatentsPerStep : ℕ)
    (data : POYOData) : POYOTokenizerOut :=
  let s : ℝ := 0
  let e : ℝ := 1
  let se := create_start_end_unit_tokens data.unitIds s e
  let spikeTokenTypeIndex := se.1 ++ List.replicate data.spikeUnitIndex.length 0
  let spikeUnitLocal := se.2.1 ++ data.spikeUnitIndex
  let spikeTs := se.2.2 ++ data.spikeTimestamps
  let localToGlobal := data.unitIds.map unitTokenizer
  let spikeUnit := spikeUnitLocal.map (fun li => localToGlobal.getD li 0)
  let lat := create_linspace_latent_tokens s e latentStep numLatentsPerStep
  let outTs := prepare_for_multitask_readout data
  if usingMemEffAttn = false then
    { spike_unit_index := padMark spikeUnit,
      spike_timestamps := padMark spikeTs,
      spike_type := padMark spikeTokenTypeIndex,
      input_mask := some (track_mask spikeUnit),
      input_seqlen := none,
      latent_index := lat.1,
      latent_timestamps := lat.2,
      latent_seqlen := none,
      output_timestamps := padMark outTs,
      output_seqlen := none,
      output_batch_index := none }
  else
    { spike_unit_index := chainMark spikeUnit,
      spike_timestamps := chainMark spikeTs,
      spike_type := chainMark spikeTokenTypeIndex,
      input_mask := none,
      input_seqlen := some spikeUnit.length,
      latent_index := chainMark lat.1,
      latent_timestamps := chainMark lat.2,
      latent_seqlen := some lat.1.length,
      output_timestamps := chainMark outTs,
      output_seqlen := some outTs.length,
      output_batch_index := some (track_batch outTs) }

/-! ### Collate.__call__, input side (src/kirby/data/dataset.py, lines 309-473)

Tensor rows are built from zero-initialised rows by slice assignments.
`writeSeg f s vals` writes list `vals` at positions `s, s+1, ...`
(`t[s : s + len(vals)] = vals`); `writeConst f lo hi c` writes the constant
`c` on `[lo, hi)` (`t[lo:hi] = c`). -/

def writeSeg {α : Type} (f : ℕ → α) (s : ℕ) (vals : List α) : ℕ → α :=
  fun j => if s ≤ j ∧ j - s < vals.length then vals.getD (j - s) (f j) else f j

def writeConst {α : Type} (f : ℕ → α) (lo hi : ℕ) (c : α) : ℕ → α :=
  fun j => if lo ≤ j ∧ j < hi then c else f j

/-- One entry of `data.description["metrics"]`: the decoder key together
with the timestamps and value rows that
`resolve(data, registry[key].timestamp_key / .value_key)` return. -/
structure MetricData where
  outputKey : String
  timestamps : List ℝ
  values : List (List ℝ)

/-- The parts of a `Data` sample that `Collate.__call__` reads for the
claims below: `data.spikes.timestamps`, `data.spikes.names`,
`data.units.unit_name`, `data.start`, `data.end`, the metric list and the
session name (waveform / LFP extras are orthogonal and omitted). -/
structure SampleData where
  spikeTimestamps : List ℝ
  spikeNames : List String
  unitNames : List String
  startT : ℝ
  endT : ℝ
  metrics : List MetricData
  session : String

noncomputable def defaultSample : SampleData := ⟨[], [], [], 0, 0, [], ""⟩

/-- `num_tokens` for one sample: `len(data.spikes) + len(data.units.unit_name) * 2`. -/
def numTokens (d : SampleData) : ℕ :=
  d.spikeTimestamps.length + d.unitNames.length * 2

/-- Shallow embedding of `next_multiple_of_8`. -/
def next_multiple_of_8 (x : ℕ) : ℕ :=
  if x % 8 = 0 then x else x + (8 - x % 8)

/-- Python `max` on a list of naturals (folded with seed 0; the collator
only applies it to non-empty batches). -/
def listMax (l : List ℕ) : ℕ := l.foldl Nat.max 0

/-- Row `i` of `spike_ids`:
`spike_ids[i, : len(mapped_spikes)] = unit_vocab.forward(list(spikes.names)
+ list(units) + list(units))` on a zero row. -/
def spikeIdsRow (vocab : String → ℕ) (d : SampleData) : ℕ → ℕ :=
  writeSeg (fun _ => 0) 0 (((d.spikeNames ++ d.unitNames) ++ d.unitNames).map vocab)

/-- Row `i` of `spike_timestamps`: spike timestamps on the first
`len(spikes)` slots, then `start = 0.0` for one slot per unit, then
`end - start` for one slot per unit, on a zero row. -/
noncomputable def spikeTimestampsRow (d : SampleData) : ℕ → ℝ :=
  writeConst
    (writeConst (writeSeg (fun _ => 0) 0 d.spikeTimestamps)
      d.spikeTimestamps.length
      (d.spikeTimestamps.length + d.unitNames.length) 0)
    (d.spikeTimestamps.length + d.unitNames.length)
    (d.spikeTimestamps.length + d.unitNames.length * 2)
    (d.endT - d.startT)

/-- Row `i` of `spike_type`: `START = 1` on the unit slots after the
spikes, then `END = 2` on the next unit slots, on a zero row. -/
def spikeTypeRow (d : SampleData) : ℕ → ℕ :=
  writeConst
    (writeConst (fun _ => 0)
      d.spikeTimestamps.length
      (d.spikeTimestamps.length + d.unitNames.length) 1)
    (d.spikeTimestamps.length + d.unitNames.length)
    (d.spikeTimestamps.length + d.unitNames.length * 2)
    2

/-- Row `i` of `input_mask`:
`input_mask[i, : len(spikes) + len(units) * 2] = True` on a false row. -/
def inputMaskRow (d : SampleData) : ℕ → Bool :=
  writeConst (fun _ => false) 0
    (d.spikeTimestamps.length + d.unitNames.length * 2) true

/-- The input-side tensors of the collated batch.  `numCols` is the common
second dimension `max_num_tokens` all four tensors are allocated with. -/
structure CollateInputs where
  numCols : ℕ
  spike_timestamps : ℕ → ℕ → ℝ
  spike_ids : ℕ → ℕ → ℕ
  spike_type : ℕ → ℕ → ℕ
  input_mask : ℕ → ℕ → Bool

/-- Shallow embedding of the input side of `Collate.__call__`: the loop
body at index `i` writes only row `i` of each tensor, so the fill is the
per-row construction applied to sample `i`. -/
noncomputable def collateInputs (vocab : String → ℕ) (batch : List SampleData) :
    CollateInputs :=
  { numCols := next_multiple_of_8 (listMax (batch.map numTokens)),
    spike_timestamps := fun i => spikeTimestampsRow (batch.getD i defaultSample),
    spike_ids := fun i => spikeIdsRow vocab (batch.getD i defaultSample),
    spike_type := fun i => spikeTypeRow (batch.getD i defaultSample),
    input_mask := fun i => inputMaskRow (batch.getD i defaultSample) }

/-- Concrete one-sample batch for the C3 witness: one spike, one unit, so
`num_tokens = 3` and the padded width is 8. -/
noncomputable def sampleW : SampleData := ⟨[(0.5 : ℝ)], ["a"], ["a"], 0, 1, [], "s"⟩

/-! ### PerceiverNM (src/kirby/models/perceiver_rotary.py, lines 60-270)

Vectors of width `n` are functions `Fin n → ℝ`.  All dropout layers are the
identity (claim C2 quantifies over calls with dropout disabled).  `F.gelu`
(the exact Gaussian-CDF gelu) is carried as an opaque real function
argument `gelu`; nothing below depends on its shape.  The xformers and the
`F.scaled_dot_product_attention` branches compute the same masked-softmax
attention; the model embeds the latter, whose boolean mask semantics give a
`-inf` score (weight 0) to every key position whose mask entry is false. -/

abbrev Vec (n : ℕ) := Fin n → ℝ

/-- Weights of an `nn.LayerNorm` over the last dimension. -/
structure LayerNormW (n : ℕ) where
  gamma : Vec n
  beta : Vec n
  eps : ℝ

/-- `nn.LayerNorm` with biased variance, as PyTorch computes it. -/
noncomputable def layerNorm {n : ℕ} (w : LayerNormW n) (x : Vec n) : Vec n :=
  fun i =>
    (x i - (∑ k, x k) / n)
        / Real.sqrt ((∑ k, (x k - (∑ m, x m) / n) ^ 2) / n + w.eps)
      * w.gamma i + w.beta i

/-- Weights of an `nn.Linear` with bias. -/
structure LinearW (m n : ℕ) where
  w : Fin n → Fin m → ℝ
  b : Vec n

noncomputable def linearB {m n : ℕ} (W : LinearW m n) (x : Vec m) : Vec n :=
  fun o => (∑ i, W.w o i * x i) + W.b o

/-- `nn.Linear(..., bias=False)`. -/
noncomputable def linearNB {m n : ℕ} (W : Fin n → Fin m → ℝ) (x : Vec m) : Vec n :=
  fun o => ∑ i, W o i * x i

/-- `rearrange(t, 'b n (h d) -> b h n d', h=heads)` on one batch element:
head `h` of position `i` reads flat slots `h*dh + d`. -/
noncomputable def splitHeads {n heads dh : ℕ} (f : Fin n → Vec (heads * dh)) :
    Fin heads → Fin n → Vec dh :=
  fun h i d =>
    f i ⟨(h : ℕ) * dh + (d : ℕ), by
      have hh := h.isLt
      have hd := d.isLt
      have h1 : (h : ℕ) * dh + (d : ℕ) < ((h : ℕ) + 1) * dh := by
        rw [Nat.add_mul, Nat.one_mul]; omega
      exact Nat.lt_of_lt_of_le h1 (Nat.mul_le_mul_right dh hh)⟩

/-- `rearrange(t, 'b h n d -> b n (h d)')` on one batch element: flat slot
`x` reads head `x / dh`, coordinate `x % dh` (for `dh = 0` the flat vector
is empty and the branch is unreachable). -/
noncomputable def mergeHeads {n heads dh : ℕ} (f : Fin heads → Fin n → Vec dh) :
    Fin n → Vec (heads * dh) :=
  fun i x =>
    if hdh : 0 < dh then
      f ⟨(x : ℕ) / dh, (Nat.div_lt_iff_lt_mul hdh).mpr x.isLt⟩ i
        ⟨(x : ℕ) % dh, Nat.mod_lt _ hdh⟩
    else 0

/-- Softmax weights of `F.scaled_dot_product_attention` for one query
vector: masked-out key positions (boolean mask entry false) receive a
`-inf` score, i.e. weight 0. -/
noncomputable def sdpaWeights {dh nK : ℕ} (scale : ℝ) (q : Vec dh)
    (k : Fin nK → Vec dh) (mask : Option (Fin nK → Bool)) : Fin nK → ℝ :=
  fun j =>
    match mask with
    | none => Real.exp (scale * ∑ d, q d * k j d)
    | some m => if m j then Real.exp (scale * ∑ d, q d * k j d) else 0

/-- `F.scaled_dot_product_attention` for one query vector of one head:
softmax-weighted combination of the values (`scale` is the default
`1/sqrt(dh)`; the module's unused `self.scale` attribute plays no role). -/
noncomputable def sdpaHead {dh nK : ℕ} (scale : ℝ) (q : Vec dh)
    (k v : Fin nK → Vec dh) (mask : Option (Fin nK → Bool)) : Vec dh :=
  fun d => ∑ j,
    (sdpaWeights scale q k mask j / ∑ jp, sdpaWeights scale q k mask jp) * v j d

/-- Weights of `RotaryCrossAttention`; `to_kv`'s output chunk is split into
its `k` and `v` halves. -/
structure RotaryCrossAttentionW (dim ctxDim heads dh : ℕ) where
  norm : LayerNormW dim
  normContext : LayerNormW ctxDim
  toQ : Fin (heads * dh) → Fin dim → ℝ
  toK : Fin (heads * dh) → Fin ctxDim → ℝ
  toV : Fin (heads * dh) → Fin ctxDim → ℝ
  toOut : LinearW (heads * dh) dim

/-- Shallow embedding of `RotaryCrossAttention.forward` on one batch
element: layer-norm both streams, project to q/k/v, split heads, apply the
rotary embedding to q and k (broadcast over heads, `dim=1`), run masked
scaled-dot-product attention per head and query, merge heads and project
out. -/
noncomputable def rotaryCrossAttention {dim ctxDim heads dh nQ nK : ℕ}
    (W : RotaryCrossAttentionW dim ctxDim heads dh)
    (xQuery : Fin nQ → Vec dim) (xContext : Fin nK → Vec ctxDim)
    (freqsQuery : Fin nQ → Vec dh) (freqsContext : Fin nK → Vec dh)
    (attnMask : Option (Fin nK → Bool)) : Fin nQ → Vec dim :=
  fun i => linearB W.toOut (mergeHeads
    (fun h i2 => sdpaHead (1 / Real.sqrt dh)
      (apply_rotary_pos_emb (freqsQuery i2)
        (splitHeads (fun i3 => linearNB W.toQ (layerNorm W.norm (xQuery i3))) h i2))
      (fun j => apply_rotary_pos_emb (freqsContext j)
        (splitHeads (fun j2 => linearNB W.toK (layerNorm W.normContext (xContext j2))) h j))
      (fun j => splitHeads (fun j2 => linearNB W.toV (layerNorm W.normContext (xContext j2))) h j)
      attnMask) i)

/-- Weights of `RotarySelfAttention`; `to_qkv`'s output chunk is split into
its `q`, `k` and `v` thirds. -/
structure RotarySelfAttentionW (dim heads dh : ℕ) where
  norm : LayerNormW dim
  toQ : Fin (heads * dh) → Fin dim → ℝ
  toK : Fin (heads * dh) → Fin dim → ℝ
  toV : Fin (heads * dh) → Fin dim → ℝ
  toOut : LinearW (heads * dh) dim

/-- Shallow embedding of `RotarySelfAttention.forward` on one batch
element (both the xformers and the plain branch compute this map). -/
noncomputable def rotarySelfAttention {dim heads dh n : ℕ}
    (W : RotarySelfAttentionW dim heads dh)
    (x : Fin n → Vec dim) (freqs : Fin n → Vec dh)
    (attnMask : Option (Fin n → Bool)) : Fin n → Vec dim :=
  fun i => linearB W.toOut (mergeHeads
    (fun h i2 => sdpaHead (1 / Real.sqrt dh)
      (apply_rotary_pos_emb (freqs i2)
        (splitHeads (fun i3 => linearNB W.toQ (layerNorm W.norm (x i3))) h i2))
      (fun j => apply_rotary_pos_emb (freqs j)
        (splitHeads (fun j2 => linearNB W.toK (layerNorm W.norm (x j2))) h j))
      (fun j => splitHeads (fun j2 => linearNB W.toV (layerNorm W.norm (x j2))) h j)
      attnMask) i)

/-- Weights of `FeedForward` (`Linear(dim, dim*mult*2)`, GEGLU,
`Linear(dim*mult, dim)`; the inner dropout is disabled). -/
structure FeedForwardW (dim mult : ℕ) where
  lin1 : LinearW dim (dim * mult * 2)
  lin2 : LinearW (dim * mult) dim

/-- `GEGLU`: `x, gates = x.chunk(2, dim=-1); x * gelu(gates)`. -/
noncomputable def geglu (gelu : ℝ → ℝ) {n : ℕ} (x : Vec (n * 2)) : Vec n :=
  fun i => x ⟨(i : ℕ), by have := i.isLt; omega⟩
    * gelu (x ⟨n + (i : ℕ), by have := i.isLt; omega⟩)

noncomputable def feedForward (gelu : ℝ → ℝ) {dim mult : ℕ}
    (W : FeedForwardW dim mult) (x : Vec dim) : Vec dim :=
  linearB W.lin2 (geglu gelu (linearB W.lin1 x))

/-- Weights of `PerceiverNM`: the embedding tables (as functions of the
index), the encoder cross-attention block, the processing self-attention
stack (one `RotarySelfAttention` plus a layer-normed `FeedForward` per
layer), the decoder cross-attention block and the output projection. -/
structure PerceiverNMW (dim dh crossHeads selfHeads mult outDim : ℕ) where
  unitEmb : ℕ → Vec dim
  spikeTypeEmb : ℕ → Vec dim
  taskEmb : ℕ → Vec dim
  latentEmb : ℕ → Vec dim
  encAtn : RotaryCrossAttentionW dim dim crossHeads dh
  encFfnNorm : LayerNormW dim
  encFfn : FeedForwardW dim mult
  procLayers : List (RotarySelfAttentionW dim selfHeads dh
    × LayerNormW dim × FeedForwardW dim mult)
  decAtn : RotaryCrossAttentionW dim dim crossHeads dh
  decFfnNorm : LayerNormW dim
  decFfn : FeedForwardW dim mult
  decoderOut : LinearW dim outDim

/-- Latents after the encoder cross-attention residual:
`latents = latents + enc_atn(latents, x_input, latent_emb, spike_emb,
input_mask)`, where `x_input = unit_emb(spike_unit_id) +
spike_type_emb(spike_id)` and the rotary tables come from the
timestamps. -/
noncomputable def encLatents1 {dim dh crossHeads selfHeads mult outDim nIn nLat : ℕ}
    (W : PerceiverNMW dim dh crossHeads selfHeads mult outDim)
    (spikeUnitId : Fin nIn → ℕ) (spikeTimestamps : Fin nIn → ℝ)
    (spikeId : Fin nIn → ℕ) (inputMask : Fin nIn → Bool)
    (latentId : Fin nLat → ℕ) (latentTimestamps : Fin nLat → ℝ) :
    Fin nLat → Vec dim :=
  fun l => W.latentEmb (latentId l)
    + rotaryCrossAttention W.encAtn (fun l2 => W.latentEmb (latentId l2))
        (fun i => W.unitEmb (spikeUnitId i) + W.spikeTypeEmb (spikeId i))
        (fun l2 => rotaryEmbForward dh (latentTimestamps l2))
        (fun i => rotaryEmbForward dh (spikeTimestamps i))
        (some inputMask) l

/-- Latents after the encoder block (`latents = latents +
enc_ffn(latents)` with `enc_ffn = LayerNorm ∘ FeedForward`). -/
noncomputable def perceiverEncode (gelu : ℝ → ℝ)
    {dim dh crossHeads selfHeads mult outDim nIn nLat : ℕ}
    (W : PerceiverNMW dim dh crossHeads selfHeads mult outDim)
    (spikeUnitId : Fin nIn → ℕ) (spikeTimestamps : Fin nIn → ℝ)
    (spikeId : Fin nIn → ℕ) (inputMask : Fin nIn → Bool)
    (latentId : Fin nLat → ℕ) (latentTimestamps : Fin nLat → ℝ) :
    Fin nLat → Vec dim :=
  fun l => encLatents1 W spikeUnitId spikeTimestamps spikeId inputMask latentId latentTimestamps l
    + feedForward gelu W.encFfn (layerNorm W.encFfnNorm
        (encLatents1 W spikeUnitId spikeTimestamps spikeId inputMask latentId latentTimestamps l))

/-- The processing stack: per layer, a self-attention residual (no mask is
passed in `PerceiverNM.forward`) followed by a feed-forward residual (the
`lin_dropout` wrappers are disabled). -/
noncomputable def procLayersApply (gelu : ℝ → ℝ) {dim selfHeads dh mult nLat : ℕ}
    (layers : List (RotarySelfAttentionW dim selfHeads dh
      × LayerNormW dim × FeedForwardW dim mult))
    (latentFreqs : Fin nLat → Vec dh) (latents : Fin nLat → Vec dim) :
    Fin nLat → Vec dim :=
  layers.foldl (fun lat layer =>
    fun l =>
      (fun l2 => lat l2 + rotarySelfAttention layer.1 lat latentFreqs none l2) l
        + feedForward gelu layer.2.2 (layerNorm layer.2.1
            ((fun l2 => lat l2 + rotarySelfAttention layer.1 lat latentFreqs none l2) l)))
    latents

/-- The decoder block: `x_output = task_emb(task_id)` (one query embedding
shared across the `N_out` output positions, with per-position rotary tables
from `query_timestamps`), then `x_output = x_output + dec_atn(x_output,
latents, ...)`, `x_output = x_output + dec_ffn(x_output)` and the final
`decoder_out` projection. -/
noncomputable def perceiverDecode (gelu : ℝ → ℝ)
    {dim dh crossHeads selfHeads mult outDim nLat nOut : ℕ}
    (W : PerceiverNMW dim dh crossHeads selfHeads mult outDim)
    (latents : Fin nLat → Vec dim) (latentFreqs : Fin nLat → Vec dh)
    (queryTimestamps : Fin nOut → ℝ) (taskId : ℕ) : Fin nOut → Vec outDim :=
  fun o => linearB W.decoderOut
    ((fun o2 =>
        (fun o3 => W.taskEmb taskId
          + rotaryCrossAttention W.decAtn (fun _ => W.taskEmb taskId) latents
              (fun o4 => rotaryEmbForward dh (queryTimestamps o4)) latentFreqs none o3) o2
        + feedForward gelu W.decFfn (layerNorm W.decFfnNorm
            ((fun o3 => W.taskEmb taskId
              + rotaryCrossAttention W.decAtn (fun _ => W.taskEmb taskId) latents
                  (fun o4 => rotaryEmbForward dh (queryTimestamps o4)) latentFreqs none o3) o2))) o)

/-- Shallow embedding of `PerceiverNM.forward` (dropout disabled).  Each
batch element is processed independently: encode, process, decode. -/
noncomputable def perceiverNMForward (gelu : ℝ → ℝ)
    {dim dh crossHeads selfHeads mult outDim B nIn nLat nOut : ℕ}
    (W : PerceiverNMW dim dh crossHeads selfHeads mult outDim)
    (spikeUnitId : Fin B → Fin nIn → ℕ) (spikeTimestamps : Fin B → Fin nIn → ℝ)
    (spikeId : Fin B → Fin nIn → ℕ) (inputMask : Fin B → Fin nIn → Bool)
    (latentId : Fin B → Fin nLat → ℕ) (latentTimestamps : Fin B → Fin nLat → ℝ)
    (queryTimestamps : Fin B → Fin nOut → ℝ) (taskId : Fin B → ℕ) :
    Fin B → Fin nOut → Vec outDim :=
  fun b =>
    perceiverDecode gelu W
      (procLayersApply gelu W.procLayers
        (fun l => rotaryEmbForward dh (latentTimestamps b l))
        (perceiverEncode gelu W (spikeUnitId b) (spikeTimestamps b) (spikeId b)
          (inputMask b) (latentId b) (latentTimestamps b)))
      (fun l => rotaryEmbForward dh (latentTimestamps b l))
      (queryTimestamps b) (taskId b)

/-- Trivial concrete weights used by the C2 witness. -/
noncomputable def lnW1 : LayerNormW 1 := ⟨fun _ => 1, fun _ => 0, 1 / 100000⟩

noncomputable def crossW1 : RotaryCrossAttentionW 1 1 1 1 :=
  ⟨lnW1, lnW1, fun _ _ => 0, fun _ _ => 0, fun _ _ => 0, ⟨fun _ _ => 0, fun _ => 0⟩⟩

noncomputable def ffW1 : FeedForwardW 1 1 :=
  ⟨⟨fun _ _ => 0, fun _ => 0⟩, ⟨fun _ _ => 0, fun _ => 0⟩⟩

noncomputable def perceiverW1 : PerceiverNMW 1 1 1 1 1 1 :=
  ⟨fun _ _ => 0, fun _ _ => 0, fun _ _ => 0, fun _ _ => 0,
   crossW1, lnW1, ffW1, [], crossW1, lnW1, ffW1, ⟨fun _ _ => 0, fun _ => 0⟩⟩

/-! ### Collate.__call__, output side (src/kirby/data/dataset.py, lines 333-426, 518-567)

The first pass counts `num_outputs_taskwise[key]` (the allocation size of
`output_task_indices[key]`, `output_values[key]` and `output_weights[key]`)
from `value.shape[0]` of each metric.  The second pass walks the batch
carrying, per sample, the running `timestamps_offset` (over all metrics of
the sample) and, per key, the running `output_offset[key]`, writing
`output_timestamps[i, timestamps_offset + arange(num)] = timestamps` and
`output_task_indices[key][offset : offset + num] = (i, timestamps_range)`.
The mutable state of that pass is `OutSt`. -/

structure OutSt where
  outTS : ℕ → ℕ → ℝ
  taskIdx : String → ℕ → ℕ × ℕ
  offsets : String → ℕ

/-- The `(batch-index, sequence-index)` rows written for one metric:
`(i, tsOff + j)` for `j < num`. -/
def metricIdxEntries (i tsOff num : ℕ) : List (ℕ × ℕ) :=
  (List.range num).map (fun j => (i, tsOff + j))

/-- Processing of one metric of sample `i` at sample offset `tsOff`:
write its timestamps into row `i` of `output_timestamps`, its index rows
into `output_task_indices[key]` at the key's current offset, and advance
that offset (`output_values` / `output_weights` fills touch the same row
range and are size-tracked by the first pass). -/
def fillMetric (i tsOff : ℕ) (m : MetricData) (st : OutSt) : OutSt :=
  { outTS := fun b => if b = i then writeSeg (st.outTS b) tsOff m.timestamps else st.outTS b,
    taskIdx := fun k =>
      if m.outputKey = k then
        writeSeg (st.taskIdx k) (st.offsets k)
          (metricIdxEntries i tsOff m.timestamps.length)
      else st.taskIdx k,
    offsets := fun k =>
      if m.outputKey = k then st.offsets k + m.timestamps.length else st.offsets k }

/-- The inner loop over `data.description["metrics"]` of sample `i`,
threading `timestamps_offset`. -/
def fillMetrics (i : ℕ) : ℕ → List MetricData → OutSt → OutSt
  | _, [], st => st
  | tsOff, m :: ms, st => fillMetrics i (tsOff + m.timestamps.length) ms (fillMetric i tsOff m st)

/-- The outer loop over the batch (`timestamps_offset` restarts at 0 per
sample; `output_offset` persists). -/
def fillBatch : ℕ → List SampleData → OutSt → OutSt
  | _, [], st => st
  | i, s :: rest, st => fillBatch (i + 1) rest (fillMetrics i 0 s.metrics st)

/-- The zero-initialised output tensors
(`torch.zeros(...)` everywhere, offsets start at 0). -/
noncomputable def initOutSt : OutSt := ⟨fun _ _ => 0, fun _ _ => (0, 0), fun _ => 0⟩

noncomputable def collateOutputs (batch : List SampleData) : OutSt :=
  fillBatch 0 batch initOutSt

/-- First pass, per sample: `num_outputs_taskwise[key] += value.shape[0]`
over the metrics with this output key. -/
def sampleKeyCount (s : SampleData) (k : String) : ℕ :=
  s.metrics.foldl (fun a m => if m.outputKey = k then a + m.values.length else a) 0

/-- First pass over the batch. -/
def num_outputs_taskwise (batch : List SampleData) (k : String) : ℕ :=
  batch.foldl (fun a s => a + sampleKeyCount s k) 0

/-- Specification-side enumeration of the outputs of key `k` contributed by
a metric list, in processing order: batch index, output-sequence position
(sample offset plus position within the metric) and timestamp. -/
noncomputable def metricsKeyOutputs (i : ℕ) (k : String) :
    ℕ → List MetricData → List (ℕ × ℕ × ℝ)
  | _, [] => []
  | tsOff, m :: ms =>
    (if m.outputKey = k then
      (List.range m.timestamps.length).map (fun j => (i, tsOff + j, m.timestamps.getD j 0))
    else [])
    ++ metricsKeyOutputs i k (tsOff + m.timestamps.length) ms

/-- Specification-side enumeration of the outputs of key `k` over the whole
batch. -/
noncomputable def taskOutputs (k : String) : ℕ → List SampleData → List (ℕ × ℕ × ℝ)
  | _, [] => []
  | i, s :: rest => metricsKeyOutputs i k 0 s.metrics ++ taskOutputs k (i + 1) rest

/-- All timestamps of a metric list in order (what row `i` of
`output_timestamps` receives). -/
def joinTs (ms : List MetricData) : List ℝ := (ms.map MetricData.timestamps).flatten

/-- Number of key-`k` outputs in a metric list. -/
def msCount (k : String) (ms : List MetricData) : ℕ :=
  (ms.map (fun m => if m.outputKey = k then m.timestamps.length else 0)).sum

/-- Concrete metrics and batch for the C7 witness. -/
noncomputable def metricW1 : MetricData := ⟨"cursor", [(0.25 : ℝ), 0.5], [[1], [2]]⟩

noncomputable def metricW2 : MetricData := ⟨"force", [(0.75 : ℝ)], [[3]]⟩

noncomputable def sampleW2 : SampleData := ⟨[], [], [], 0, 1, [metricW1, metricW2], "s2"⟩

noncomputable def sampleW3 : SampleData := ⟨[], [], [], 0, 1, [metricW1], "s3"⟩

noncomputable def batchW7 : List SampleData := [sampleW2, sampleW3]

end MtmTorchBrain

namespace MtmTorchBrain

theorem inv_freq_four_zero : inv_freq 4 0 = 1 := by
  unfold inv_freq
  norm_num

theorem inv_freq_four_one : inv_freq 4 1 = 1 / 100 := by
  unfold inv_freq
  rw [show (((2 * 1 : ℕ) : ℝ) / ((4 : ℕ) : ℝ)) = (1 / 2 : ℝ) by push_cast; norm_num]
  rw [show (10000 : ℝ) = (100 : ℝ) ^ ((2 : ℕ) : ℝ) by rw [Real.rpow_natCast]; norm_num]
  rw [← Real.rpow_mul (by norm_num : (0:ℝ) ≤ 100)]
  norm_num

/-- C1: the map `x ↦ apply_rotary_pos_emb (RotaryEmbedding dim t) x` is claimed
to preserve the Euclidean norm for every even head dimension.  It does not:
at `dim = 4`, `t = π/2000` and `x = (1,1,0,0)` the output has squared norm
`1 + sin²(π/200) < 2`.  The code pairs the interleaved frequency layout
`[f0,f0,f1,f1]` (from `repeat '... n -> ... (n r)'`) with the block rotation
`cat((-x_odd, x_even))`, two incompatible rotary conventions. -/
theorem rotary_c1_not_norm_preserving :
    sqNorm (apply_rotary_pos_emb (rotaryEmbForward 4 (Real.pi / 2000)) xC1) ≠ sqNorm xC1 := by
  have hfreq0 : rotaryEmbForward 4 (Real.pi / 2000) 0 = Real.pi / 2 := by
    rw [show rotaryEmbForward 4 (Real.pi / 2000) 0
          = 1000 * (Real.pi / 2000) * inv_freq 4 0 from rfl, inv_freq_four_zero]
    ring
  have hfreq1 : rotaryEmbForward 4 (Real.pi / 2000) 1 = Real.pi / 2 := by
    rw [show rotaryEmbForward 4 (Real.pi / 2000) 1
          = 1000 * (Real.pi / 2000) * inv_freq 4 0 from rfl, inv_freq_four_zero]
    ring
  have hfreq2 : rotaryEmbForward 4 (Real.pi / 2000) 2 = Real.pi / 200 := by
    rw [show rotaryEmbForward 4 (Real.pi / 2000) 2
          = 1000 * (Real.pi / 2000) * inv_freq 4 1 from rfl, inv_freq_four_one]
    ring
  have hfreq3 : rotaryEmbForward 4 (Real.pi / 2000) 3 = Real.pi / 200 := by
    rw [show rotaryEmbForward 4 (Real.pi / 2000) 3
          = 1000 * (Real.pi / 2000) * inv_freq 4 1 from rfl, inv_freq_four_one]
    ring
  -- rotate_half (1,1,0,0) = (-1, 0, 1, 0)
  have hrot0 : rotate_half xC1 0 = -1 := rfl
  have hrot1 : rotate_half xC1 1 = 0 := by
    rw [show rotate_half xC1 1 = -(0 : ℝ) from rfl]; norm_num
  have hrot2 : rotate_half xC1 2 = 1 := rfl
  have hrot3 : rotate_half xC1 3 = 0 := rfl
  have hx0 : xC1 0 = 1 := rfl
  have hx1 : xC1 1 = 1 := rfl
  have hx2 : xC1 2 = 0 := rfl
  have hx3 : xC1 3 = 0 := rfl
  have hs : Real.sin (Real.pi / 200) < 1 := by
    have h1 : Real.sin (Real.pi / 200) < Real.pi / 200 :=
      Real.sin_lt (by positivity)
    have h2 : Real.pi / 200 < 1 := by
      have := Real.pi_lt_d2
      linarith
    linarith
  have hspos : 0 < Real.sin (Real.pi / 200) := by
    apply Real.sin_pos_of_pos_of_lt_pi
    · positivity
    · nlinarith [Real.pi_pos]
  intro h
  unfold sqNorm at h
  rw [Fin.sum_univ_four, Fin.sum_univ_four] at h
  rw [show apply_rotary_pos_emb (rotaryEmbForward 4 (Real.pi / 2000)) xC1 0
        = xC1 0 * Real.cos (rotaryEmbForward 4 (Real.pi / 2000) 0)
          + rotate_half xC1 0 * Real.sin (rotaryEmbForward 4 (Real.pi / 2000) 0) from rfl,
      show apply_rotary_pos_emb (rotaryEmbForward 4 (Real.pi / 2000)) xC1 1
        = xC1 1 * Real.cos (rotaryEmbForward 4 (Real.pi / 2000) 1)
          + rotate_half xC1 1 * Real.sin (rotaryEmbForward 4 (Real.pi / 2000) 1) from rfl,
      show apply_rotary_pos_emb (rotaryEmbForward 4 (Real.pi / 2000)) xC1 2
        = xC1 2 * Real.cos (rotaryEmbForward 4 (Real.pi / 2000) 2)
          + rotate_half xC1 2 * Real.sin (rotaryEmbForward 4 (Real.pi / 2000) 2) from rfl,
      show apply_rotary_pos_emb (rotaryEmbForward 4 (Real.pi / 2000)) xC1 3
        = xC1 3 * Real.cos (rotaryEmbForward 4 (Real.pi / 2000) 3)
          + rotate_half xC1 3 * Real.sin (rotaryEmbForward 4 (Real.pi / 2000) 3) from rfl] at h
  rw [hfreq0, hfreq1, hfreq2, hfreq3, hrot0, hrot1, hrot2, hrot3,
      hx0, hx1, hx2, hx3, Real.cos_pi_div_two, Real.sin_pi_div_two] at h
  nlinarith [h, hs, hspos,
    mul_pos (sub_pos.mpr hs) (by linarith : (0:ℝ) < 1 + Real.sin (Real.pi / 200))]

theorem listMul_length {α : Type} (l : List α) (n : ℕ) :
    (listMul l n).length = n * l.length := by
  induction n with
  | zero => simp [listMul]
  | succ n ih => simp [listMul, ih]; ring

/-- C10: for a dataset with at least one chunk and positive batch size,
`augment_for_batchsize` yields at least `batch_size` chunks; it is the
identity when the dataset is already long enough, and otherwise repeats the
chunk list `1 + (batch_size - 1) // len` times. -/
theorem augment_for_batchsize_c10 {α : Type} (chunks : List α) (bs : ℕ)
    (hne : chunks ≠ []) (hbs : 0 < bs) :
    bs ≤ (augment_for_batchsize chunks bs).length ∧
    (bs ≤ chunks.length → augment_for_batchsize chunks bs = chunks) ∧
    (chunks.length < bs →
      augment_for_batchsize chunks bs = listMul chunks (1 + (bs - 1) / chunks.length)) := by
  have hl : 0 < chunks.length := List.length_pos.mpr hne
  by_cases h : chunks.length < bs
  · refine ⟨?_, fun hge => absurd h (by omega), fun _ => by simp [augment_for_batchsize, h]⟩
    rw [augment_for_batchsize, if_pos h, listMul_length]
    have key := Nat.mod_add_div (bs - 1) chunks.length
    have hr : (bs - 1) % chunks.length < chunks.length := Nat.mod_lt _ hl
    rw [one_add_mul, Nat.mul_comm]
    generalize hP : chunks.length * ((bs - 1) / chunks.length) = P at key ⊢
    omega
  · refine ⟨?_, fun _ => by simp [augment_for_batchsize, h], fun hlt => absurd hlt h⟩
    rw [augment_for_batchsize, if_neg h]
    omega

/-- Witness for C10 at the concrete dataset `[0]` and batch size 3. -/
theorem augment_for_batchsize_c10_witness :
    3 ≤ (augment_for_batchsize [(0 : ℕ)] 3).length ∧
    (3 ≤ ([(0 : ℕ)]).length → augment_for_batchsize [(0 : ℕ)] 3 = [0]) ∧
    (([(0 : ℕ)]).length < 3 →
      augment_for_batchsize [(0 : ℕ)] 3 = listMul [0] (1 + (3 - 1) / ([(0 : ℕ)]).length)) :=
  augment_for_batchsize_c10 [0] 3 (by simp) (by norm_num)

/-- C8: `POYO.freeze_middle` always raises `AttributeError` (it reads
`self.enc_atn`, an attribute `POYO` never defines), and it raises before
modifying any state: the returned module state equals the input, so every
parameter's `requires_grad` flag is unchanged. -/
theorem freeze_middle_c8 (p : POYOParams) :
    freeze_middle p = (p, some "AttributeError: POYO object has no attribute enc_atn") := by
  rfl

/-- C5: the self-attention mask is causal over time: for non-context
positions `(i, j)` the entry is `0` when `times[i] >= times[j]` and `-inf`
otherwise; every row may attend to every appended context column (those
entries are `0`); and a context row is `-inf` at every non-context
column. -/
theorem make_src_mask_c5 (heads : ℕ) (times : ℕ → ℕ → ℤ) (S nbCtx bh i j : ℕ) :
    (i < S → j < S →
      ((times (bh / heads) j ≤ times (bh / heads) i →
          make_src_mask heads times S nbCtx bh i j = ((0 : ℝ) : WithBot ℝ)) ∧
        (times (bh / heads) i < times (bh / heads) j →
          make_src_mask heads times S nbCtx bh i j = ⊥))) ∧
    (i < S + nbCtx → S ≤ j → j < S + nbCtx →
      make_src_mask heads times S nbCtx bh i j = ((0 : ℝ) : WithBot ℝ)) ∧
    (S ≤ i → i < S + nbCtx → j < S →
      make_src_mask heads times S nbCtx bh i j = ⊥) := by
  refine ⟨fun hi hj => ⟨fun hle => ?_, fun hlt => ?_⟩,
          fun _ hjl hjr => ?_, fun hil hir hj => ?_⟩
  · rw [make_src_mask, if_neg (by omega), if_neg (by omega), if_pos hle]
  · rw [make_src_mask, if_neg (by omega), if_neg (by omega),
        if_neg (not_le.mpr hlt)]
  · rw [make_src_mask, if_pos ⟨hjl, hjr⟩]
  · rw [make_src_mask, if_neg (by omega), if_pos ⟨hil, hir⟩]

/-- Witness for C5 with two sequence positions at times 0 and 1 and one
context token (`S = 2`, `nb_ctx_token = 1`). -/
theorem make_src_mask_c5_witness :
    make_src_mask 1 (fun _ t => (t : ℤ)) 2 1 0 1 0 = ((0 : ℝ) : WithBot ℝ) ∧
    make_src_mask 1 (fun _ t => (t : ℤ)) 2 1 0 0 1 = (⊥ : WithBot ℝ) ∧
    make_src_mask 1 (fun _ t => (t : ℤ)) 2 1 0 0 2 = ((0 : ℝ) : WithBot ℝ) ∧
    make_src_mask 1 (fun _ t => (t : ℤ)) 2 1 0 2 1 = (⊥ : WithBot ℝ) :=
  ⟨((make_src_mask_c5 1 (fun _ t => (t : ℤ)) 2 1 0 1 0).1 (by norm_num) (by norm_num)).1
      (by norm_num),
   ((make_src_mask_c5 1 (fun _ t => (t : ℤ)) 2 1 0 0 1).1 (by norm_num) (by norm_num)).2
      (by norm_num),
   (make_src_mask_c5 1 (fun _ t => (t : ℤ)) 2 1 0 0 2).2.1 (by norm_num) (by norm_num)
      (by norm_num),
   (make_src_mask_c5 1 (fun _ t => (t : ℤ)) 2 1 0 2 1).2.2 (by norm_num) (by norm_num)
      (by norm_num)⟩

/-- C4: for every batch and every masking mode, `MaeMaskManager.forward`
with `eval_mode=False` stores the original `spike_tokens` in
`spike_tokens_target`, zeroes `spike_tokens` exactly on the patches where
the generated `spike_tokens_target_mask` is true, and leaves `time_idx`,
`space_idx` and `channel_counts` unchanged. -/
theorem mae_mask_c4 (frac : ℚ) (mode : String) (rand : ℕ → ℕ → Bool) (batch : MaeBatch)
    (hm : mode = "temporal" ∨ mode = "neuron" ∨ mode = "forward-pred" ∨ mode = "random") :
    ∃ out : MaeOut, ∃ msk : ℕ → ℕ → Bool,
      maeMaskForward frac mode rand batch false = .ok out ∧
      out.targetMask = some msk ∧
      out.spikeTokensTarget = batch.spikeTokens ∧
      (∀ b t p q, msk b t = false → out.spikeTokens b t p q = batch.spikeTokens b t p q) ∧
      (∀ b t p q, msk b t = true → out.spikeTokens b t p q = 0) ∧
      out.timeIdx = batch.timeIdx ∧ out.spaceIdx = batch.spaceIdx ∧
      out.channelCounts = batch.channelCounts := by
  rcases hm with h | h | h | h <;> subst h <;>
    exact ⟨_, _, rfl, rfl, rfl,
      fun b t p q hbt => by simp only [hbt, if_false, Bool.false_eq_true],
      fun b t p q hbt => by simp only [hbt, if_true],
      rfl, rfl, rfl⟩

/-- Witness for C4 in mode `"random"` with an all-ones Bernoulli draw. -/
theorem mae_mask_c4_witness :
    ∃ out : MaeOut, ∃ msk : ℕ → ℕ → Bool,
      maeMaskForward 0 "random" (fun _ _ => true) maeBatchW false = .ok out ∧
      out.targetMask = some msk ∧
      out.spikeTokensTarget = maeBatchW.spikeTokens ∧
      (∀ b t p q, msk b t = false → out.spikeTokens b t p q = maeBatchW.spikeTokens b t p q) ∧
      (∀ b t p q, msk b t = true → out.spikeTokens b t p q = 0) ∧
      out.timeIdx = maeBatchW.timeIdx ∧ out.spaceIdx = maeBatchW.spaceIdx ∧
      out.channelCounts = maeBatchW.channelCounts :=
  mae_mask_c4 0 "random" (fun _ _ => true) maeBatchW (Or.inr (Or.inr (Or.inr rfl)))

/-- C9: with `eval_mode=False` an unknown mode raises
`ValueError("Unknown mode: ...")` before any key of the batch is written
(the model reads shapes and unique counts only), and with `eval_mode=True`
the call returns normally for every mode, with `spike_tokens` unchanged and
every `*_target` key equal to its source key. -/
theorem mae_mask_c9 (frac : ℚ) (mode : String) (rand : ℕ → ℕ → Bool) (batch : MaeBatch) :
    ((mode ≠ "temporal" ∧ mode ≠ "neuron" ∧ mode ≠ "forward-pred" ∧ mode ≠ "random") →
      maeMaskForward frac mode rand batch false = .error ("Unknown mode: " ++ mode)) ∧
    (∃ out : MaeOut, maeMaskForward frac mode rand batch true = .ok out ∧
      out.spikeTokens = batch.spikeTokens ∧
      out.spikeTokensTarget = batch.spikeTokens ∧
      out.timeIdxTarget = batch.timeIdx ∧
      out.spaceIdxTarget = batch.spaceIdx ∧
      out.channelCountsTarget = batch.channelCounts ∧
      out.timeIdx = batch.timeIdx ∧ out.spaceIdx = batch.spaceIdx ∧
      out.channelCounts = batch.channelCounts) := by
  constructor
  · rintro ⟨h1, h2, h3, h4⟩
    simp [maeMaskForward, h1, h2, h3, h4]
  · exact ⟨_, rfl, rfl, rfl, rfl, rfl, rfl, rfl, rfl, rfl⟩

/-- Witness for C9 at the unknown mode `"banana"`. -/
theorem mae_mask_c9_witness :
    maeMaskForward 0 "banana" (fun _ _ => false) maeBatchW false
        = .error ("Unknown mode: " ++ "banana") ∧
    (∃ out : MaeOut, maeMaskForward 0 "banana" (fun _ _ => false) maeBatchW true = .ok out ∧
      out.spikeTokens = maeBatchW.spikeTokens ∧
      out.spikeTokensTarget = maeBatchW.spikeTokens ∧
      out.timeIdxTarget = maeBatchW.timeIdx ∧
      out.spaceIdxTarget = maeBatchW.spaceIdx ∧
      out.channelCountsTarget = maeBatchW.channelCounts ∧
      out.timeIdx = maeBatchW.timeIdx ∧ out.spaceIdx = maeBatchW.spaceIdx ∧
      out.channelCounts = maeBatchW.channelCounts) :=
  ⟨(mae_mask_c9 0 "banana" (fun _ _ => false) maeBatchW).1
      (by refine ⟨?_, ?_, ?_, ?_⟩ <;> decide),
   (mae_mask_c9 0 "banana" (fun _ _ => false) maeBatchW).2⟩

/-- C6: with `using_memory_efficient_attn=False` the tokenizer emits padded
spike tensors with an all-true `input_mask` (one entry per spike token) and
no seqlen fields; with `using_memory_efficient_attn=True` it emits chained
sequences with `input_seqlen` equal to the number of spike tokens (spikes
plus two start/end tokens per unit), `latent_seqlen` equal to the number of
latent tokens (steps times latents per step), and `output_seqlen` equal to
the number of output timestamps. -/
theorem poyo_tokenizer_c6 (unitTokenizer : String → ℕ) (latentStep : ℝ)
    (u : ℕ) (d : POYOData) :
    ((poyoTokenizerCall false unitTokenizer latentStep u d).input_mask
        = some (List.replicate (d.spikeUnitIndex.length + 2 * d.unitIds.length) true) ∧
      (poyoTokenizerCall false unitTokenizer latentStep u d).input_seqlen = none ∧
      (poyoTokenizerCall false unitTokenizer latentStep u d).latent_seqlen = none ∧
      (poyoTokenizerCall false unitTokenizer latentStep u d).output_seqlen = none) ∧
    ((poyoTokenizerCall true unitTokenizer latentStep u d).input_seqlen
        = some (d.spikeUnitIndex.length + 2 * d.unitIds.length) ∧
      (poyoTokenizerCall true unitTokenizer latentStep u d).latent_seqlen
        = some (Nat.ceil ((1 - 0 : ℝ) / latentStep) * u) ∧
      (poyoTokenizerCall true unitTokenizer latentStep u d).latent_seqlen
        = some ((poyoTokenizerCall true unitTokenizer latentStep u d).latent_index.length) ∧
      (poyoTokenizerCall true unitTokenizer latentStep u d).output_seqlen
        = some ((d.outputTimestampLists.map List.length).sum)) := by
  have hlat : (create_linspace_latent_tokens 0 1 latentStep u).1.length
      = Nat.ceil ((1 - 0 : ℝ) / latentStep) * u := by
    simp [create_linspace_latent_tokens, List.length_flatten, List.map_map,
      Function.comp_def, Nat.mul_comm]
  refine ⟨⟨?_, rfl, rfl, rfl⟩, ⟨?_, ?_, rfl, ?_⟩⟩
  · rw [show (poyoTokenizerCall false unitTokenizer latentStep u d).input_mask
        = some (track_mask (((create_start_end_unit_tokens d.unitIds 0 1).2.1
            ++ d.spikeUnitIndex).map
              (fun li => (d.unitIds.map unitTokenizer).getD li 0))) from rfl]
    unfold track_mask create_start_end_unit_tokens
    simp
    omega
  · rw [show (poyoTokenizerCall true unitTokenizer latentStep u d).input_seqlen
        = some ((((create_start_end_unit_tokens d.unitIds 0 1).2.1
            ++ d.spikeUnitIndex).map
              (fun li => (d.unitIds.map unitTokenizer).getD li 0)).length) from rfl]
    unfold create_start_end_unit_tokens
    simp
    omega
  · rw [show (poyoTokenizerCall true unitTokenizer latentStep u d).latent_seqlen
        = some ((create_linspace_latent_tokens 0 1 latentStep u).1.length) from rfl, hlat]
  · rw [show (poyoTokenizerCall true unitTokenizer latentStep u d).output_seqlen
        = some ((prepare_for_multitask_readout d).length) from rfl]
    simp [prepare_for_multitask_readout, List.length_flatten]

theorem foldl_max_init_le (l : List ℕ) (b : ℕ) : b ≤ l.foldl Nat.max b := by
  induction l generalizing b with
  | nil => exact Nat.le_refl b
  | cons x xs ih => exact Nat.le_trans (Nat.le_max_left b x) (ih (Nat.max b x))

theorem le_listMax (l : List ℕ) (a : ℕ) (h : a ∈ l) : a ≤ listMax l := by
  unfold listMax
  generalize 0 = b
  induction l generalizing b with
  | nil => cases h
  | cons x xs ih =>
    rcases List.mem_cons.mp h with rfl | hx
    · exact Nat.le_trans (Nat.le_max_right b a) (foldl_max_init_le xs (Nat.max b a))
    · exact ih hx (Nat.max b x)

theorem listMax_le (l : List ℕ) (y : ℕ) (h : ∀ a ∈ l, a ≤ y) : listMax l ≤ y := by
  unfold listMax
  suffices H : ∀ b, b ≤ y → (∀ a ∈ l, a ≤ y) → l.foldl Nat.max b ≤ y from
    H 0 (Nat.zero_le y) h
  clear h
  induction l with
  | nil => exact fun b hb _ => hb
  | cons x xs ih =>
    intro b hb hh
    exact ih (Nat.max b x) (Nat.max_le.mpr ⟨hb, hh x (List.mem_cons_self x xs)⟩)
      (fun a ha => hh a (List.mem_cons_of_mem x ha))

theorem next_multiple_of_8_spec (x : ℕ) :
    next_multiple_of_8 x % 8 = 0 ∧ x ≤ next_multiple_of_8 x ∧
      ∀ y, y % 8 = 0 → x ≤ y → next_multiple_of_8 x ≤ y := by
  unfold next_multiple_of_8
  by_cases h : x % 8 = 0
  · rw [if_pos h]
    exact ⟨h, Nat.le_refl x, fun y _ hxy => hxy⟩
  · rw [if_neg h]
    exact ⟨by omega, by omega, fun y hy hxy => by omega⟩

/-- C3: the collated input tensors share the column count
`M = next_multiple_of_8(max num_tokens)`, which is the least multiple of 8
at least every sample's `num_tokens`; `input_mask[i]` is true exactly on
the first `num_tokens_i` positions; and beyond that prefix the three spike
tensors are zero. -/
theorem collate_inputs_c3 (vocab : String → ℕ) (batch : List SampleData)
    (_hne : batch ≠ [])
    (hnames : ∀ s ∈ batch, s.spikeNames.length = s.spikeTimestamps.length) :
    ((collateInputs vocab batch).numCols % 8 = 0 ∧
      (∀ i, i < batch.length →
        numTokens (batch.getD i defaultSample) ≤ (collateInputs vocab batch).numCols) ∧
      (∀ y, y % 8 = 0 →
        (∀ i, i < batch.length → numTokens (batch.getD i defaultSample) ≤ y) →
        (collateInputs vocab batch).numCols ≤ y)) ∧
    (∀ i j, (collateInputs vocab batch).input_mask i j = true ↔
      j < numTokens (batch.getD i defaultSample)) ∧
    (∀ i j, i < batch.length → numTokens (batch.getD i defaultSample) ≤ j →
      (collateInputs vocab batch).spike_timestamps i j = 0 ∧
      (collateInputs vocab batch).spike_ids i j = 0 ∧
      (collateInputs vocab batch).spike_type i j = 0) := by
  have hcols : (collateInputs vocab batch).numCols
      = next_multiple_of_8 (listMax (batch.map numTokens)) := rfl
  refine ⟨⟨?_, ?_, ?_⟩, ?_, ?_⟩
  · rw [hcols]; exact (next_multiple_of_8_spec _).1
  · intro i hi
    rw [hcols]
    refine Nat.le_trans ?_ (next_multiple_of_8_spec _).2.1
    exact le_listMax _ _ (List.mem_map.mpr ⟨batch.getD i defaultSample,
      by rw [List.getD_eq_getElem batch defaultSample hi]; exact List.getElem_mem hi, rfl⟩)
  · intro y hy hall
    rw [hcols]
    refine (next_multiple_of_8_spec _).2.2 y hy ?_
    refine listMax_le _ _ ?_
    intro a ha
    rcases List.mem_map.mp ha with ⟨s, hs, rfl⟩
    rcases List.mem_iff_getElem.mp hs with ⟨i, hi, rfl⟩
    have := hall i hi
    rwa [List.getD_eq_getElem batch defaultSample hi] at this
  · intro i j
    set s := batch.getD i defaultSample with hs
    show inputMaskRow s j = true ↔ j < numTokens s
    unfold inputMaskRow writeConst numTokens
    by_cases h : j < s.spikeTimestamps.length + s.unitNames.length * 2
    · simp [h]
    · simp [h]
  · intro i j hi hj
    set s := batch.getD i defaultSample with hs
    simp only [numTokens] at hj
    have hmem : s ∈ batch := by
      rw [hs, List.getD_eq_getElem batch defaultSample hi]; exact List.getElem_mem hi
    have hnl : s.spikeNames.length = s.spikeTimestamps.length := hnames s hmem
    have hlen : (((s.spikeNames ++ s.unitNames) ++ s.unitNames).map vocab).length
        = s.spikeNames.length + s.unitNames.length + s.unitNames.length := by
      rw [List.length_map, List.length_append, List.length_append]
    refine ⟨?_, ?_, ?_⟩
    · show spikeTimestampsRow s j = 0
      unfold spikeTimestampsRow writeConst writeSeg
      rw [if_neg (by omega), if_neg (by omega), if_neg (by omega)]
    · show spikeIdsRow vocab s j = 0
      unfold spikeIdsRow writeSeg
      rw [if_neg (by omega)]
    · show spikeTypeRow s j = 0
      unfold spikeTypeRow writeConst
      rw [if_neg (by omega), if_neg (by omega)]

/-- Witness for C3 on the concrete batch `[sampleW]`. -/
theorem collate_inputs_c3_witness :
    (collateInputs (fun _ => 1) [sampleW]).numCols % 8 = 0 ∧
    (collateInputs (fun _ => 1) [sampleW]).input_mask 0 2 = true ∧
    (collateInputs (fun _ => 1) [sampleW]).spike_timestamps 0 5 = 0 ∧
    (collateInputs (fun _ => 1) [sampleW]).spike_ids 0 5 = 0 ∧
    (collateInputs (fun _ => 1) [sampleW]).spike_type 0 5 = 0 := by
  have h := collate_inputs_c3 (fun _ => 1) [sampleW] (by simp)
    (by intro s hs; rw [List.mem_singleton.mp hs]; rfl)
  have hz := h.2.2 0 5 (by simp) (by simp [sampleW, numTokens])
  exact ⟨h.1.1, (h.2.1 0 2).mpr (by simp [sampleW, numTokens]),
    hz.1, hz.2.1, hz.2.2⟩

theorem sdpaWeights_masked_congr {dh nK : ℕ} (scale : ℝ) (q : Vec dh)
    (k1 k2 : Fin nK → Vec dh) (m : Fin nK → Bool)
    (hk : ∀ j, m j = true → k1 j = k2 j) :
    sdpaWeights scale q k1 (some m) = sdpaWeights scale q k2 (some m) := by
  funext j
  by_cases hmj : m j = true
  · simp only [sdpaWeights]
    rw [hk j hmj]
  · have hf : m j = false := Bool.eq_false_iff.mpr hmj
    simp only [sdpaWeights, hf]
    simp

theorem sdpaHead_masked_congr {dh nK : ℕ} (scale : ℝ) (q : Vec dh)
    (k1 k2 v1 v2 : Fin nK → Vec dh) (m : Fin nK → Bool)
    (hk : ∀ j, m j = true → k1 j = k2 j) (hv : ∀ j, m j = true → v1 j = v2 j) :
    sdpaHead scale q k1 v1 (some m) = sdpaHead scale q k2 v2 (some m) := by
  have hw := sdpaWeights_masked_congr scale q k1 k2 m hk
  funext d
  simp only [sdpaHead]
  rw [hw]
  refine Finset.sum_congr rfl fun j _ => ?_
  by_cases hmj : m j = true
  · rw [hv j hmj]
  · have hf : m j = false := Bool.eq_false_iff.mpr hmj
    have hz : sdpaWeights scale q k2 (some m) j = 0 := by
      simp [sdpaWeights, hf]
    rw [hz]
    simp

theorem splitHeads_congr_at {n heads dh : ℕ} (f g : Fin n → Vec (heads * dh))
    (h : Fin heads) (i : Fin n) (hfg : f i = g i) :
    splitHeads f h i = splitHeads g h i := by
  funext d
  unfold splitHeads
  rw [hfg]

theorem rotaryCrossAttention_masked_congr {dim ctxDim heads dh nQ nK : ℕ}
    (W : RotaryCrossAttentionW dim ctxDim heads dh)
    (xQuery : Fin nQ → Vec dim) (xc1 xc2 : Fin nK → Vec ctxDim)
    (fq : Fin nQ → Vec dh) (fc1 fc2 : Fin nK → Vec dh) (m : Fin nK → Bool)
    (hc : ∀ j, m j = true → xc1 j = xc2 j ∧ fc1 j = fc2 j) :
    rotaryCrossAttention W xQuery xc1 fq fc1 (some m)
      = rotaryCrossAttention W xQuery xc2 fq fc2 (some m) := by
  funext i
  simp only [rotaryCrossAttention]
  apply congrArg (linearB W.toOut)
  apply congrArg (fun f => mergeHeads f i)
  funext h i2
  apply sdpaHead_masked_congr
  · intro j hm
    rw [(hc j hm).2]
    apply congrArg (apply_rotary_pos_emb (fc2 j))
    apply splitHeads_congr_at
    dsimp only
    rw [(hc j hm).1]
  · intro j hm
    apply splitHeads_congr_at
    dsimp only
    rw [(hc j hm).1]

theorem encLatents1_congr {dim dh crossHeads selfHeads mult outDim nIn nLat : ℕ}
    (W : PerceiverNMW dim dh crossHeads selfHeads mult outDim)
    (suid1 suid2 : Fin nIn → ℕ) (sts1 sts2 : Fin nIn → ℝ) (sid1 sid2 : Fin nIn → ℕ)
    (imask : Fin nIn → Bool) (lid : Fin nLat → ℕ) (lts : Fin nLat → ℝ)
    (h : ∀ i, imask i = true → suid1 i = suid2 i ∧ sts1 i = sts2 i ∧ sid1 i = sid2 i) :
    encLatents1 W suid1 sts1 sid1 imask lid lts
      = encLatents1 W suid2 sts2 sid2 imask lid lts := by
  unfold encLatents1
  have hcross := rotaryCrossAttention_masked_congr W.encAtn
    (fun l2 => W.latentEmb (lid l2))
    (fun i => W.unitEmb (suid1 i) + W.spikeTypeEmb (sid1 i))
    (fun i => W.unitEmb (suid2 i) + W.spikeTypeEmb (sid2 i))
    (fun l2 => rotaryEmbForward dh (lts l2))
    (fun i => rotaryEmbForward dh (sts1 i))
    (fun i => rotaryEmbForward dh (sts2 i))
    imask
    (fun j hm => ⟨by dsimp only; rw [(h j hm).1, (h j hm).2.2],
                  by dsimp only; rw [(h j hm).2.1]⟩)
  rw [hcross]

theorem perceiverEncode_congr (gelu : ℝ → ℝ)
    {dim dh crossHeads selfHeads mult outDim nIn nLat : ℕ}
    (W : PerceiverNMW dim dh crossHeads selfHeads mult outDim)
    (suid1 suid2 : Fin nIn → ℕ) (sts1 sts2 : Fin nIn → ℝ) (sid1 sid2 : Fin nIn → ℕ)
    (imask : Fin nIn → Bool) (lid : Fin nLat → ℕ) (lts : Fin nLat → ℝ)
    (h : ∀ i, imask i = true → suid1 i = suid2 i ∧ sts1 i = sts2 i ∧ sid1 i = sid2 i) :
    perceiverEncode gelu W suid1 sts1 sid1 imask lid lts
      = perceiverEncode gelu W suid2 sts2 sid2 imask lid lts := by
  unfold perceiverEncode
  rw [encLatents1_congr W suid1 suid2 sts1 sts2 sid1 sid2 imask lid lts h]

/-- C2: padding tokens never influence the `PerceiverNM.forward` output:
with dropout disabled and identical weights, two calls whose arguments
agree everywhere except that `spike_unit_id`, `spike_timestamps` and
`spike_id` may differ at input positions where `input_mask` is false
return equal outputs (masked key positions get softmax weight 0, so
nothing they carry reaches the latents). -/
theorem perceiverNM_padding_c2 (gelu : ℝ → ℝ)
    {dim dh crossHeads selfHeads mult outDim B nIn nLat nOut : ℕ}
    (W : PerceiverNMW dim dh crossHeads selfHeads mult outDim)
    (suid1 suid2 : Fin B → Fin nIn → ℕ)
    (sts1 sts2 : Fin B → Fin nIn → ℝ)
    (sid1 sid2 : Fin B → Fin nIn → ℕ)
    (imask : Fin B → Fin nIn → Bool)
    (lid : Fin B → Fin nLat → ℕ) (lts : Fin B → Fin nLat → ℝ)
    (qts : Fin B → Fin nOut → ℝ) (tid : Fin B → ℕ)
    (h : ∀ b i, imask b i = true →
      suid1 b i = suid2 b i ∧ sts1 b i = sts2 b i ∧ sid1 b i = sid2 b i) :
    perceiverNMForward gelu W suid1 sts1 sid1 imask lid lts qts tid
      = perceiverNMForward gelu W suid2 sts2 sid2 imask lid lts qts tid := by
  funext b
  simp only [perceiverNMForward]
  rw [perceiverEncode_congr gelu W (suid1 b) (suid2 b) (sts1 b) (sts2 b)
    (sid1 b) (sid2 b) (imask b) (lid b) (lts b) (fun i hm => h b i hm)]

/-- Witness for C2: a fully masked-out one-token input; the two calls
differ arbitrarily in the spike ids and timestamps at that position. -/
theorem perceiverNM_padding_c2_witness :
    perceiverNMForward (fun r => r) perceiverW1
      ((fun _ _ => 0) : Fin 1 → Fin 1 → ℕ) ((fun _ _ => 0) : Fin 1 → Fin 1 → ℝ)
      ((fun _ _ => 0) : Fin 1 → Fin 1 → ℕ) ((fun _ _ => false) : Fin 1 → Fin 1 → Bool)
      ((fun _ _ => 0) : Fin 1 → Fin 1 → ℕ) ((fun _ _ => 0) : Fin 1 → Fin 1 → ℝ)
      ((fun _ _ => 0) : Fin 1 → Fin 1 → ℝ) ((fun _ => 0) : Fin 1 → ℕ)
    = perceiverNMForward (fun r => r) perceiverW1
      ((fun _ _ => 1) : Fin 1 → Fin 1 → ℕ) ((fun _ _ => 2) : Fin 1 → Fin 1 → ℝ)
      ((fun _ _ => 3) : Fin 1 → Fin 1 → ℕ) ((fun _ _ => false) : Fin 1 → Fin 1 → Bool)
      ((fun _ _ => 0) : Fin 1 → Fin 1 → ℕ) ((fun _ _ => 0) : Fin 1 → Fin 1 → ℝ)
      ((fun _ _ => 0) : Fin 1 → Fin 1 → ℝ) ((fun _ => 0) : Fin 1 → ℕ) :=
  perceiverNM_padding_c2 (fun r => r) perceiverW1 _ _ _ _ _ _ _ _ _ _ _
    (fun _ _ hm => Bool.noConfusion hm)

theorem writeSeg_nil {α : Type} (f : ℕ → α) (s : ℕ) : writeSeg f s [] = f := by
  funext j
  unfold writeSeg
  simp

theorem writeSeg_lookup_in {α : Type} (f : ℕ → α) (s : ℕ) (vals : List α) (j : ℕ)
    (h1 : s ≤ j) (h2 : j - s < vals.length) (d : α) :
    writeSeg f s vals j = vals.getD (j - s) d := by
  unfold writeSeg
  rw [if_pos ⟨h1, h2⟩, List.getD_eq_getElem _ _ h2, List.getD_eq_getElem _ _ h2]

theorem writeSeg_lookup_out {α : Type} (f : ℕ → α) (s : ℕ) (vals : List α) (j : ℕ)
    (h : j < s ∨ s + vals.length ≤ j) :
    writeSeg f s vals j = f j := by
  unfold writeSeg
  rw [if_neg (by omega)]

theorem writeSeg_append {α : Type} (f : ℕ → α) (s : ℕ) (xs ys : List α) :
    writeSeg (writeSeg f s xs) (s + xs.length) ys = writeSeg f s (xs ++ ys) := by
  funext j
  by_cases hy : s + xs.length ≤ j ∧ j - (s + xs.length) < ys.length
  · rw [writeSeg_lookup_in _ _ _ _ hy.1 hy.2 (f j),
      writeSeg_lookup_in f s _ j (by omega) (by simp; omega) (f j),
      List.getD_append_right _ _ _ _ (by omega)]
    congr 1
    omega
  · rw [writeSeg_lookup_out _ _ _ _ (by omega)]
    by_cases hx : s ≤ j ∧ j - s < xs.length
    · rw [writeSeg_lookup_in _ _ _ _ hx.1 hx.2 (f j),
        writeSeg_lookup_in f s _ j hx.1 (by simp; omega) (f j),
        List.getD_append _ _ _ _ hx.2]
    · rw [writeSeg_lookup_out _ _ _ _ (by omega),
        writeSeg_lookup_out _ _ _ _ (by simp; omega)]

theorem metricIdxEntries_length (i tsOff num : ℕ) :
    (metricIdxEntries i tsOff num).length = num := by
  simp [metricIdxEntries]

theorem metricsKeyOutputs_length (i : ℕ) (k : String) (ms : List MetricData) :
    ∀ tsOff, (metricsKeyOutputs i k tsOff ms).length = msCount k ms := by
  induction ms with
  | nil => intro tsOff; simp [metricsKeyOutputs, msCount]
  | cons m ms ih =>
    intro tsOff
    simp only [metricsKeyOutputs, msCount, List.map_cons, List.sum_cons, List.length_append]
    rw [ih]
    by_cases hk : m.outputKey = k
    · simp [hk, msCount]
    · simp [hk, msCount]

theorem taskOutputs_length (k : String) (batch : List SampleData) :
    ∀ i, (taskOutputs k i batch).length
      = (batch.map (fun s => msCount k s.metrics)).sum := by
  induction batch with
  | nil => intro i; simp [taskOutputs]
  | cons s rest ih =>
    intro i
    simp only [taskOutputs, List.length_append, List.map_cons, List.sum_cons]
    rw [metricsKeyOutputs_length, ih]

theorem sampleKeyCount_eq (s : SampleData) (k : String)
    (hv : ∀ m ∈ s.metrics, m.values.length = m.timestamps.length) :
    sampleKeyCount s k = msCount k s.metrics := by
  unfold sampleKeyCount msCount
  suffices H : ∀ (ms : List MetricData),
      (∀ m ∈ ms, m.values.length = m.timestamps.length) →
      ∀ a, ms.foldl (fun a m => if m.outputKey = k then a + m.values.length else a) a
        = a + (ms.map (fun m => if m.outputKey = k then m.timestamps.length else 0)).sum by
    rw [H s.metrics hv 0]; omega
  intro ms
  induction ms with
  | nil => intro _ a; simp
  | cons m ms ih =>
    intro hsub a
    simp only [List.foldl_cons, List.map_cons, List.sum_cons]
    rw [ih (fun m2 hm2 => hsub m2 (List.mem_cons_of_mem m hm2))]
    by_cases hk : m.outputKey = k
    · rw [if_pos hk, if_pos hk, hsub m (List.mem_cons_self m ms)]
      omega
    · rw [if_neg hk, if_neg hk]
      omega

theorem num_outputs_taskwise_eq (batch : List SampleData) (k : String)
    (hv : ∀ s ∈ batch, ∀ m ∈ s.metrics, m.values.length = m.timestamps.length) :
    num_outputs_taskwise batch k = (batch.map (fun s => msCount k s.metrics)).sum := by
  unfold num_outputs_taskwise
  suffices H : ∀ (bs : List SampleData),
      (∀ s ∈ bs, ∀ m ∈ s.metrics, m.values.length = m.timestamps.length) →
      ∀ a, bs.foldl (fun a s => a + sampleKeyCount s k) a
        = a + (bs.map (fun s => msCount k s.metrics)).sum by
    rw [H batch hv 0]; omega
  intro bs
  induction bs with
  | nil => intro _ a; simp
  | cons s rest ih =>
    intro hsub a
    simp only [List.foldl_cons, List.map_cons, List.sum_cons]
    rw [ih (fun s2 hs2 => hsub s2 (List.mem_cons_of_mem s hs2)),
      sampleKeyCount_eq s k (hsub s (List.mem_cons_self s rest))]
    omega

theorem fillMetrics_offsets (i : ℕ) (k : String) (ms : List MetricData) :
    ∀ tsOff st, (fillMetrics i tsOff ms st).offsets k = st.offsets k + msCount k ms := by
  induction ms with
  | nil => intro tsOff st; simp [fillMetrics, msCount]
  | cons m ms ih =>
    intro tsOff st
    simp only [fillMetrics]
    rw [ih]
    simp only [fillMetric, msCount, List.map_cons, List.sum_cons]
    by_cases hk : m.outputKey = k
    · rw [if_pos hk, if_pos hk]
      omega
    · rw [if_neg hk, if_neg hk]
      omega

theorem fillMetrics_taskIdx (i : ℕ) (k : String) (ms : List MetricData) :
    ∀ tsOff st, (fillMetrics i tsOff ms st).taskIdx k
      = writeSeg (st.taskIdx k) (st.offsets k)
          ((metricsKeyOutputs i k tsOff ms).map (fun e => (e.1, e.2.1))) := by
  induction ms with
  | nil => intro tsOff st; simp [fillMetrics, metricsKeyOutputs, writeSeg_nil]
  | cons m ms ih =>
    intro tsOff st
    simp only [fillMetrics]
    rw [ih]
    simp only [fillMetric, metricsKeyOutputs]
    by_cases hk : m.outputKey = k
    · rw [if_pos hk, if_pos hk]
      rw [show st.offsets k + m.timestamps.length
          = st.offsets k + (metricIdxEntries i tsOff m.timestamps.length).length by
        rw [metricIdxEntries_length]]
      rw [writeSeg_append]
      rw [if_pos hk, List.map_append, List.map_map]
      congr 1
    · rw [if_neg hk, if_neg hk, if_neg hk, List.nil_append]

theorem fillMetrics_outTS (i : ℕ) (ms : List MetricData) :
    ∀ tsOff st, (fillMetrics i tsOff ms st).outTS
      = fun b => if b = i then writeSeg (st.outTS i) tsOff (joinTs ms) else st.outTS b := by
  induction ms with
  | nil =>
    intro tsOff st
    funext b
    simp only [fillMetrics, joinTs, List.map_nil, List.flatten_nil, writeSeg_nil]
    by_cases hb : b = i
    · subst hb; rw [if_pos rfl]
    · rw [if_neg hb]
  | cons m ms ih =>
    intro tsOff st
    simp only [fillMetrics]
    rw [ih]
    funext b
    by_cases hb : b = i
    · rw [if_pos hb, if_pos hb]
      have hfm : (fillMetric i tsOff m st).outTS i
          = writeSeg (st.outTS i) tsOff m.timestamps := by
        simp [fillMetric]
      rw [hfm, writeSeg_append]
      congr 1
    · rw [if_neg hb, if_neg hb]
      have hfm : (fillMetric i tsOff m st).outTS b = st.outTS b := by
        simp [fillMetric, hb]
      exact hfm

theorem fillBatch_offsets (k : String) (batch : List SampleData) :
    ∀ i st, (fillBatch i batch st).offsets k
      = st.offsets k + (batch.map (fun s => msCount k s.metrics)).sum := by
  induction batch with
  | nil => intro i st; simp [fillBatch]
  | cons s rest ih =>
    intro i st
    simp only [fillBatch, List.map_cons, List.sum_cons]
    rw [ih, fillMetrics_offsets]
    omega

theorem fillBatch_taskIdx (k : String) (batch : List SampleData) :
    ∀ i st, (fillBatch i batch st).taskIdx k
      = writeSeg (st.taskIdx k) (st.offsets k)
          ((taskOutputs k i batch).map (fun e => (e.1, e.2.1))) := by
  induction batch with
  | nil => intro i st; simp [fillBatch, taskOutputs, writeSeg_nil]
  | cons s rest ih =>
    intro i st
    simp only [fillBatch, taskOutputs]
    rw [ih, fillMetrics_taskIdx, fillMetrics_offsets]
    rw [show st.offsets k + msCount k s.metrics
        = st.offsets k + ((metricsKeyOutputs i k 0 s.metrics).map
            (fun e => (e.1, e.2.1))).length by
      rw [List.length_map, metricsKeyOutputs_length]]
    rw [writeSeg_append, ← List.map_append]

theorem fillBatch_outTS_lower (batch : List SampleData) :
    ∀ i st b, b < i → (fillBatch i batch st).outTS b = st.outTS b := by
  induction batch with
  | nil => intro i st b _; rfl
  | cons s rest ih =>
    intro i st b hb
    simp only [fillBatch]
    rw [ih (i + 1) _ b (by omega), fillMetrics_outTS]
    show (if b = i then writeSeg (st.outTS i) 0 (joinTs s.metrics) else st.outTS b)
      = st.outTS b
    rw [if_neg (by omega)]

theorem fillBatch_outTS_row (batch : List SampleData) :
    ∀ i st j, j < batch.length →
      (fillBatch i batch st).outTS (i + j)
        = writeSeg (st.outTS (i + j)) 0 (joinTs ((batch.getD j defaultSample).metrics)) := by
  induction batch with
  | nil => intro i st j hj; cases hj
  | cons s rest ih =>
    intro i st j hj
    simp only [fillBatch]
    cases j with
    | zero =>
      have h1 : (fillBatch (i + 1) rest (fillMetrics i 0 s.metrics st)).outTS i
          = (fillMetrics i 0 s.metrics st).outTS i :=
        fillBatch_outTS_lower rest (i + 1) _ i (by omega)
      have h2 : (fillMetrics i 0 s.metrics st).outTS i
          = writeSeg (st.outTS i) 0 (joinTs s.metrics) := by
        rw [fillMetrics_outTS]
        show (if i = i then writeSeg (st.outTS i) 0 (joinTs s.metrics) else st.outTS i)
          = writeSeg (st.outTS i) 0 (joinTs s.metrics)
        rw [if_pos rfl]
      exact h1.trans h2
    | succ j2 =>
      have hj2 : j2 < rest.length := by
        simp only [List.length_cons] at hj; omega
      have hplus : i + (j2 + 1) = (i + 1) + j2 := by omega
      rw [hplus, ih (i + 1) _ j2 hj2]
      have h2 : (fillMetrics i 0 s.metrics st).outTS ((i + 1) + j2)
          = st.outTS ((i + 1) + j2) := by
        rw [fillMetrics_outTS]
        show (if (i + 1) + j2 = i then writeSeg (st.outTS i) 0 (joinTs s.metrics)
            else st.outTS ((i + 1) + j2)) = st.outTS ((i + 1) + j2)
        rw [if_neg (by omega)]
      rw [h2, List.getD_cons_succ]

theorem metricsKeyOutputs_mem (i : ℕ) (k : String) (ms : List MetricData) :
    ∀ tsOff e, e ∈ metricsKeyOutputs i k tsOff ms →
      e.1 = i ∧ tsOff ≤ e.2.1 ∧ e.2.1 - tsOff < (joinTs ms).length ∧
        (joinTs ms).getD (e.2.1 - tsOff) 0 = e.2.2 := by
  induction ms with
  | nil => intro tsOff e he; cases he
  | cons m ms ih =>
    intro tsOff e he
    rcases List.mem_append.mp he with hh | ht
    · by_cases hk : m.outputKey = k
      · rw [if_pos hk] at hh
        rcases List.mem_map.mp hh with ⟨j, hj, rfl⟩
        have hjlt : j < m.timestamps.length := List.mem_range.mp hj
        refine ⟨rfl, ?_, ?_, ?_⟩
        · show tsOff ≤ tsOff + j
          omega
        · show tsOff + j - tsOff < (joinTs (m :: ms)).length
          simp only [joinTs, List.map_cons, List.flatten_cons, List.length_append]
          omega
        · show (joinTs (m :: ms)).getD (tsOff + j - tsOff) 0 = m.timestamps.getD j 0
          simp only [joinTs, List.map_cons, List.flatten_cons]
          rw [show tsOff + j - tsOff = j by omega,
            List.getD_append _ _ _ _ hjlt]
      · rw [if_neg hk] at hh
        cases hh
    · obtain ⟨he1, he2, he3, he4⟩ := ih (tsOff + m.timestamps.length) e ht
      refine ⟨he1, by omega, ?_, ?_⟩
      · simp only [joinTs, List.map_cons, List.flatten_cons, List.length_append]
        have : (joinTs ms).length = ((ms.map MetricData.timestamps).flatten).length := rfl
        omega
      · simp only [joinTs, List.map_cons, List.flatten_cons]
        rw [List.getD_append_right _ _ _ _ (by omega)]
        rw [show e.2.1 - tsOff - m.timestamps.length
            = e.2.1 - (tsOff + m.timestamps.length) by omega]
        exact he4

theorem taskOutputs_mem (k : String) (batch : List SampleData) :
    ∀ i e, e ∈ taskOutputs k i batch →
      ∃ j, j < batch.length ∧ e.1 = i + j ∧
        e.2.1 < (joinTs ((batch.getD j defaultSample).metrics)).length ∧
        (joinTs ((batch.getD j defaultSample).metrics)).getD (e.2.1) 0 = e.2.2 := by
  induction batch with
  | nil => intro i e he; cases he
  | cons s rest ih =>
    intro i e he
    rcases List.mem_append.mp he with hh | ht
    · obtain ⟨he1, _, he3, he4⟩ := metricsKeyOutputs_mem i k s.metrics 0 e hh
      refine ⟨0, by simp, by omega, ?_, ?_⟩
      · rw [List.getD_cons_zero]
        omega
      · rw [List.getD_cons_zero]
        exact he4
    · obtain ⟨j, hj, he1, he3, he4⟩ := ih (i + 1) e ht
      refine ⟨j + 1, by simp only [List.length_cons]; omega, by omega, ?_, ?_⟩
      · rw [List.getD_cons_succ]
        exact he3
      · rw [List.getD_cons_succ]
        exact he4

/-- C7: multi-task outputs are grouped task-wise without loss or overlap:
the first-pass allocation `num_outputs_taskwise[key]` (the number of rows
of `output_values[key]` and `output_weights[key]`) equals the total number
of that task's outputs over the batch, and row `r` of
`output_task_indices[key]` holds the batch index (column 0) and the
per-sample output-sequence position (column 1) of the `r`-th such output,
the position at which `output_timestamps` holds that output's
timestamp. -/
theorem collate_outputs_c7 (batch : List SampleData) (key : String)
    (hv : ∀ s ∈ batch, ∀ m ∈ s.metrics, m.values.length = m.timestamps.length) :
    num_outputs_taskwise batch key = (taskOutputs key 0 batch).length ∧
    ∀ r, r < (taskOutputs key 0 batch).length →
      (collateOutputs batch).taskIdx key r
          = (((taskOutputs key 0 batch).getD r (0, 0, 0)).1,
             ((taskOutputs key 0 batch).getD r (0, 0, 0)).2.1) ∧
      (collateOutputs batch).outTS ((taskOutputs key 0 batch).getD r (0, 0, 0)).1
          ((taskOutputs key 0 batch).getD r (0, 0, 0)).2.1
        = ((taskOutputs key 0 batch).getD r (0, 0, 0)).2.2 := by
  constructor
  · rw [num_outputs_taskwise_eq batch key hv, taskOutputs_length]
  · intro r hr
    have hmem : (taskOutputs key 0 batch).getD r (0, 0, 0) ∈ taskOutputs key 0 batch := by
      rw [List.getD_eq_getElem _ _ hr]
      exact List.getElem_mem hr
    obtain ⟨j, hj, he1, he3, he4⟩ := taskOutputs_mem key batch 0 _ hmem
    constructor
    · show (fillBatch 0 batch initOutSt).taskIdx key r = _
      rw [fillBatch_taskIdx key batch 0 initOutSt]
      have hoff : initOutSt.offsets key = 0 := rfl
      rw [hoff]
      rw [writeSeg_lookup_in _ _ _ _ (Nat.zero_le r)
        (by rw [List.length_map]; omega) ((0, 0))]
      rw [show r - 0 = r from rfl]
      rw [List.getD_eq_getElem _ _ (by rw [List.length_map]; exact hr)]
      rw [List.getElem_map]
      rw [List.getD_eq_getElem _ _ hr]
    · show (fillBatch 0 batch initOutSt).outTS _ _ = _
      rw [he1, fillBatch_outTS_row batch 0 initOutSt j hj]
      rw [writeSeg_lookup_in _ _ _ _ (Nat.zero_le _) (by omega) (0 : ℝ)]
      rw [show ((taskOutputs key 0 batch).getD r (0, 0, 0)).2.1 - 0
          = ((taskOutputs key 0 batch).getD r (0, 0, 0)).2.1 from rfl]
      exact he4

/-- Witness for C7 on a two-sample batch with two decoder keys, evaluated
at the third "cursor" output (first output of the second sample). -/
theorem collate_outputs_c7_witness :
    num_outputs_taskwise batchW7 "cursor" = (taskOutputs "cursor" 0 batchW7).length ∧
    ((collateOutputs batchW7).taskIdx "cursor" 2
        = (((taskOutputs "cursor" 0 batchW7).getD 2 (0, 0, 0)).1,
           ((taskOutputs "cursor" 0 batchW7).getD 2 (0, 0, 0)).2.1) ∧
      (collateOutputs batchW7).outTS ((taskOutputs "cursor" 0 batchW7).getD 2 (0, 0, 0)).1
          ((taskOutputs "cursor" 0 batchW7).getD 2 (0, 0, 0)).2.1
        = ((taskOutputs "cursor" 0 batchW7).getD 2 (0, 0, 0)).2.2) := by
  have hv : ∀ s ∈ batchW7, ∀ m ∈ s.metrics, m.values.length = m.timestamps.length := by
    intro s hs m hm
    rcases List.mem_cons.mp hs with rfl | hs2
    · rcases List.mem_cons.mp hm with rfl | hm2
      · rfl
      · rcases List.mem_cons.mp hm2 with rfl | hm3
        · rfl
        · cases hm3
    · rcases List.mem_cons.mp hs2 with rfl | hs3
      · rcases List.mem_cons.mp hm with rfl | hm2
        · rfl
        · cases hm2
      · cases hs3
  have hlen : 2 < (taskOutputs "cursor" 0 batchW7).length := by
    rw [taskOutputs_length]
    simp [batchW7, sampleW2, sampleW3, msCount, metricW1, metricW2]
  exact ⟨(collate_outputs_c7 batchW7 "cursor" hv).1,
    (collate_outputs_c7 batchW7 "cursor" hv).2 2 hlen⟩

end MtmTorchBrain
